import Mathlib

/-!
Verification of the subtitle single-character caption merger
(`srt-onechar-join.py` / `srt_merge_and_translate.py`).

The Python source is shallowly embedded: strings are Lean `String`
(a wrapper around `List Char`), Python lists of lines become
`List String`, a caption block is a `List String` of its raw lines,
and the one failure point of the code (an out-of-range list index when
a successor block's time line lacks the `-->` separator) is modelled
with `Option`.
-/

set_option maxRecDepth 4000

/-- Characters Python's `str.strip` / regex `\s` treat as whitespace. -/
def pyIsSpace (c : Char) : Bool :=
  c == ' ' || c == '\t' || c == '\n' || c == '\x0b' || c == '\x0c' || c == '\r' ||
  c == '\x1c' || c == '\x1d' || c == '\x1e' || c == '\x1f' || c == '\x85' ||
  c == '\xa0' || c == '\u1680' || ('\u2000' ≤ c && c ≤ '\u200a') ||
  c == '\u2028' || c == '\u2029' || c == '\u202f' || c == '\u205f' || c == '\u3000'

/-- Line boundary characters recognised by Python's `str.splitlines`. -/
def isLineBreak (c : Char) : Bool :=
  c == '\n' || c == '\r' || c == '\x0b' || c == '\x0c' ||
  c == '\x1c' || c == '\x1d' || c == '\x1e' || c == '\x85' ||
  c == '\u2028' || c == '\u2029'

/-- Remove trailing whitespace from a character list (Python `str.rstrip`). -/
def pyRStripL (l : List Char) : List Char :=
  (l.reverse.dropWhile pyIsSpace).reverse

/-- Remove leading and trailing whitespace (Python `str.strip`). -/
def pyStripL (l : List Char) : List Char :=
  pyRStripL (l.dropWhile pyIsSpace)

/-- Python `str.strip` on `String`. -/
def pyStrip (s : String) : String := ⟨pyStripL s.data⟩

/-- Python `str.rstrip` on `String`. -/
def pyRStrip (s : String) : String := ⟨pyRStripL s.data⟩

/-- Worker for `pySplitlines`: `acc` holds the current line reversed;
`\r\n` counts as a single boundary, any other break character as one. -/
def splitlinesGo : List Char → List Char → List String
  | [], [] => []
  | [], acc => [⟨acc.reverse⟩]
  | c :: rest, acc =>
      if c == '\r' then
        match rest with
        | '\n' :: rest2 => (⟨acc.reverse⟩ : String) :: splitlinesGo rest2 []
        | [] => [(⟨acc.reverse⟩ : String)]
        | c2 :: rest2 => (⟨acc.reverse⟩ : String) :: splitlinesGo (c2 :: rest2) []
      else if isLineBreak c then (⟨acc.reverse⟩ : String) :: splitlinesGo rest []
      else splitlinesGo rest (c :: acc)

/-- Python `str.splitlines`. -/
def pySplitlines (s : String) : List String := splitlinesGo s.data []

/-- Python `sep.join(parts)`. -/
def pyJoin (sep : String) : List String → String
  | [] => ""
  | [a] => a
  | a :: b :: r => a ++ sep ++ pyJoin sep (b :: r)

/-- Python `re.sub(r'\s+', '', s)`: delete every whitespace character. -/
def removeAllWS (s : String) : String := ⟨s.data.filter (fun c => !pyIsSpace c)⟩

/-- Prepend a character to the first piece of a split result. -/
def consHead (c : Char) : List (List Char) → List (List Char)
  | [] => [[c]]
  | l :: ls => (c :: l) :: ls

/-- Python `s.split('-->')` on a character list. -/
def splitArrowL : List Char → List (List Char)
  | '-' :: '-' :: '>' :: rest => [] :: splitArrowL rest
  | c :: rest => consHead c (splitArrowL rest)
  | [] => [[]]

/-- Python `s.split('-->')`. -/
def pySplitArrow (s : String) : List String :=
  (splitArrowL s.data).map (fun l => ⟨l⟩)

/-- Match the regex fragment `(\s)?X` at the head of `cs` (greedy optional
whitespace, then the literal `X`); return the remainder on success. -/
def matchSpOpt (target : Char) (cs : List Char) : Option (List Char) :=
  match cs with
  | [] => none
  | [c1] => if c1 == target then some [] else none
  | c1 :: c2 :: rest =>
      if pyIsSpace c1 && c2 == target then some rest
      else if c1 == target then some (c2 :: rest) else none

/-- Match the common core `(\s)?少(\s)?し(\s)?休` of both rest-phrase
regexes at the head of `cs`; return the remainder after `休`. -/
def matchRestCore (cs : List Char) : Option (List Char) :=
  (matchSpOpt '少' cs).bind (fun r1 =>
    (matchSpOpt 'し' r1).bind (fun r2 => matchSpOpt '休' r2))

/-- The terminal punctuation class `[\.。\,\?]` of the rest-phrase regexes. -/
def punctT (c : Char) : Bool :=
  c == '.' || c == '。' || c == ',' || c == '?'

/-- Remainder after the last terminal-punctuation character that occurs
before any `'\n'` in the list (backtracking extent of `.+[\.。\,\?]{1,}`). -/
def lastPunctRem : List Char → Option (List Char)
  | [] => none
  | c :: rest =>
      if c == '\n' then none
      else
        match lastPunctRem rest with
        | some rem => some rem
        | none => if punctT c then some rest else none

/-- Match `.+[\.。\,\?]{1,}` with Python backtracking at the head of `r`:
`.+` needs at least one non-newline character, and the match then extends
through the last punctuation character before any newline. -/
def tailGreedyDot (r : List Char) : Option (List Char) :=
  match r with
  | [] => none
  | c0 :: rest => if c0 == '\n' then none else lastPunctRem rest

/-- Match `[^\.。\,\?]{1,}[\.。\,\?]{1,}` at the head of `r`:
a maximal nonempty run of non-punctuation characters, then a maximal
nonempty run of punctuation characters. -/
def tailNonPunct (r : List Char) : Option (List Char) :=
  let np := r.takeWhile (fun c => !punctT c)
  let r2 := r.dropWhile (fun c => !punctT c)
  if np.isEmpty then none
  else
    let ps := r2.takeWhile punctT
    if ps.isEmpty then none else some (r2.dropWhile punctT)

/-- Attempt the whole regex of `srt-onechar-join.py`'s
`remove_little_rest_phrases` at the head of `cs`. -/
def tryMatchV1 (cs : List Char) : Option (List Char) :=
  (matchRestCore cs).bind tailGreedyDot

/-- Attempt the whole regex of `srt_merge_and_translate.py`'s
`remove_little_rest_phrases` at the head of `cs`. -/
def tryMatchV2 (cs : List Char) : Option (List Char) :=
  (matchRestCore cs).bind tailNonPunct

/-- The `re.sub(pat, '', s)` scanning loop: at each position try the match,
on success drop the matched characters and continue after them, otherwise
keep one character and move on.  `fuel` bounds the recursion and is
always at least the length of the list. -/
def reSubGo (tryM : List Char → Option (List Char)) : Nat → List Char → List Char
  | 0, cs => cs
  | _ + 1, [] => []
  | n + 1, c :: rest =>
      match tryM (c :: rest) with
      | some rem => reSubGo tryM n rem
      | none => c :: reSubGo tryM n rest

/-- Function `remove_little_rest_phrases` from `srt-onechar-join.py`:
`re.sub(r'(\s)?少(\s)?し(\s)?休.+[\.。\,\?]{1,}', '', line)`. -/
def remove_little_rest_phrases (line : String) : String :=
  ⟨reSubGo tryMatchV1 line.data.length line.data⟩

namespace MergeTranslate

/-- Function `remove_little_rest_phrases` from `srt_merge_and_translate.py`:
`re.sub(r'(\s)?少(\s)?し(\s)?休[^\.。\,\?]{1,}[\.。\,\?]{1,}', '', line)`. -/
def remove_little_rest_phrases (line : String) : String :=
  ⟨reSubGo tryMatchV2 line.data.length line.data⟩

end MergeTranslate

/-- The block-accumulation loop of `merge_single_char_captions`:
a blank (whitespace-only) line closes the current block, other lines are
appended verbatim, and a final nonempty block is emitted at the end. -/
def parseGo : List String → List String → List (List String)
  | [], cur => if cur.isEmpty then [] else [cur]
  | l :: rest, cur =>
      if (pyStrip l).data.isEmpty then
        if cur.isEmpty then parseGo rest [] else cur :: parseGo rest []
      else parseGo rest (cur ++ [l])

/-- The lines `srt_content.strip().splitlines()` grouped into blocks. -/
def parseDocument (s : String) : List (List String) :=
  parseGo (pySplitlines (pyStrip s)) []

/-- The text `' '.join(block[2:]).strip()` of a block, built from the
lines as captured *before* the rest-phrase filtering (`text_parts` is a
slice copy taken before the in-place mutation). -/
def rawText (b : List String) : String :=
  pyStrip (pyJoin " " (b.drop 2))

/-- The compact text `re.sub(r'\s+', '', text)` used for the
single-character test. -/
def cleanText (b : List String) : String :=
  removeAllWS (rawText b)

/-- The in-place loop `for j in range(2, len(block)): block[j] =
remove_little_rest_phrases(block[j])`. -/
def filterBlockLines (b : List String) : List String :=
  b.take 2 ++ (b.drop 2).map remove_little_rest_phrases

/-- The merge scan of `merge_single_char_captions` (the `while i <
len(blocks)` loop).  `none` models the `IndexError` raised by
`next_time_line.split('-->')[1]` when the successor's time line has no
`-->`. -/
def mergePass : List (List String) → Option (List (List String))
  | [] => some []
  | b :: rest =>
      if b.length < 3 then (mergePass rest).map (fun ms => b :: ms)
      else
        match rest with
        | [] => (mergePass []).map (fun ms => filterBlockLines b :: ms)
        | nb :: rest2 =>
            if (cleanText b).data.length == 1 then
              if nb.length < 3 then
                (mergePass (nb :: rest2)).map (fun ms => filterBlockLines b :: ms)
              else
                match (pySplitArrow (nb.getD 1 ""))[1]? with
                | none => none
                | some e2 =>
                    let newTime :=
                      pyStrip ((pySplitArrow (b.getD 1 "")).headD "") ++ " --> " ++ pyStrip e2
                    (mergePass rest2).map
                      (fun ms => [b.getD 0 "", newTime, rawText b ++ rawText nb] :: ms)
            else (mergePass (nb :: rest2)).map (fun ms => filterBlockLines b :: ms)

/-- The serialization loop: skip blocks of fewer than 3 lines, emit the
running index, the time line, all text lines and a blank separator. -/
def serLines : Nat → List (List String) → List String
  | _, [] => []
  | n, b :: rest =>
      if b.length < 3 then serLines n rest
      else [toString n, b.getD 1 "", b.getD 2 ""] ++ b.drop 3 ++ [""] ++ serLines (n + 1) rest

/-- The final string `"\n".join(result_lines).rstrip() + "\n"`. -/
def serializeDoc (ms : List (List String)) : String :=
  pyRStrip (pyJoin "\n" (serLines 1 ms)) ++ "\n"

/-- Function `merge_single_char_captions` from `srt-onechar-join.py` as a total
function into `Option String` (`none` = the `IndexError` path). -/
def merge_single_char_captions (s : String) : Option String :=
  (mergePass (parseDocument s)).map serializeDoc

/-- The merge scan instrumented with a counter of successful merges
(used to state the count invariant; `mergePassN` mirrors `mergePass`
branch for branch). -/
def mergePassN : List (List String) → Option (List (List String) × Nat)
  | [] => some ([], 0)
  | b :: rest =>
      if b.length < 3 then (mergePassN rest).map (fun p => (b :: p.1, p.2))
      else
        match rest with
        | [] => (mergePassN []).map (fun p => (filterBlockLines b :: p.1, p.2))
        | nb :: rest2 =>
            if (cleanText b).data.length == 1 then
              if nb.length < 3 then
                (mergePassN (nb :: rest2)).map (fun p => (filterBlockLines b :: p.1, p.2))
              else
                match (pySplitArrow (nb.getD 1 ""))[1]? with
                | none => none
                | some e2 =>
                    let newTime :=
                      pyStrip ((pySplitArrow (b.getD 1 "")).headD "") ++ " --> " ++ pyStrip e2
                    (mergePassN rest2).map
                      (fun p => ([b.getD 0 "", newTime, rawText b ++ rawText nb] :: p.1, p.2 + 1))
            else (mergePassN (nb :: rest2)).map (fun p => (filterBlockLines b :: p.1, p.2))

/-- Number of well-formed (at least 3 raw lines) blocks in a sequence. -/
def wfCount (l : List (List String)) : Nat :=
  (l.filter (fun b => 3 ≤ b.length)).length

/-- A line as it occurs inside a parsed block: free of the rest-phrase
character `休`, free of line-break characters, and not whitespace-only. -/
def LineOK (ℓ : String) : Prop :=
  '休' ∉ ℓ.data ∧ (∀ c ∈ ℓ.data, isLineBreak c = false) ∧ ¬(pyStrip ℓ).data.isEmpty

/-- All blocks well-formed with `LineOK` lines. -/
def BlocksOK (ms : List (List String)) : Prop :=
  ∀ b ∈ ms, 3 ≤ b.length ∧ ∀ ℓ ∈ b, LineOK ℓ

/-- Replace a block sequence's numbers by consecutive indices from `i`
(the effect of serialization followed by re-parsing, on the block level). -/
def renumBlocks (i : Nat) : List (List String) → List (List String)
  | [] => []
  | b :: rest => (toString i :: b.drop 1) :: renumBlocks (i + 1) rest

/-- Strip trailing whitespace from the last line of a block. -/
def rstripLastLine : List String → List String
  | [] => []
  | [ℓ] => [pyRStrip ℓ]
  | ℓ :: rest => ℓ :: rstripLastLine rest

/-- Strip trailing whitespace from the last line of the last block
(the effect of the final `rstrip()` of serialization on a re-parse). -/
def rstripLastBlock : List (List String) → List (List String)
  | [] => []
  | [b] => [rstripLastLine b]
  | b :: rest => b :: rstripLastBlock rest

/-- The line list of the serialized document after the final `rstrip()`:
blocks renumbered from `n` and separated by one blank line, with no
trailing blank line and the very last line right-stripped (assumes every
block well-formed). -/
def serFinal (n : Nat) : List (List String) → List String
  | [] => []
  | [b] => rstripLastLine (toString n :: b.drop 1)
  | b :: rest => (toString n :: b.drop 1) ++ [""] ++ serFinal (n + 1) rest

example : remove_little_rest_phrases "少し休a.b." = "" := by decide
example : MergeTranslate.remove_little_rest_phrases "少し休a.b." = "b." := by decide
example : remove_little_rest_phrases "あ少し休X。" = "あ" := by decide
example : remove_little_rest_phrases "abc" = "abc" := by decide
example : pySplitlines "x\r\ny\nz\n" = ["x", "y", "z"] := by decide
example : pySplitArrow "a-->b" = ["a", "b"] := by decide
example : pySplitArrow "no" = ["no"] := by decide
example :
    merge_single_char_captions
      "1\n00:00:01,000 --> 00:00:02,000\nあ\n\n2\n00:00:02,000 --> 00:00:03,000\nりがとう\n"
      = some "1\n00:00:01,000 --> 00:00:03,000\nありがとう\n" := by decide

/-! ### Branch characterizations of the merge scan -/

theorem mergePass_nil : mergePass [] = some [] := rfl

theorem mergePass_cons_malformed {b : List String} (rest : List (List String))
    (h : b.length < 3) :
    mergePass (b :: rest) = (mergePass rest).map (fun ms => b :: ms) := by
  cases rest <;> simp [mergePass, h]

theorem mergePass_singleton {b : List String} (h : 3 ≤ b.length) :
    mergePass [b] = some [filterBlockLines b] := by
  have h' : ¬ b.length < 3 := by omega
  simp [mergePass, h']

theorem mergePass_cons_noMerge {b : List String} (rest : List (List String))
    (h3 : 3 ≤ b.length) (hc : (cleanText b).length ≠ 1) :
    mergePass (b :: rest) = (mergePass rest).map (fun ms => filterBlockLines b :: ms) := by
  have h' : ¬ b.length < 3 := by omega
  cases rest with
  | nil => simp [mergePass, h']
  | cons nb rest2 => simp [mergePass, h', hc]

theorem mergePass_cons_nextMalformed {b nb : List String} (rest2 : List (List String))
    (h3 : 3 ≤ b.length) (hn : nb.length < 3) :
    mergePass (b :: nb :: rest2) =
      (mergePass (nb :: rest2)).map (fun ms => filterBlockLines b :: ms) := by
  have h' : ¬ b.length < 3 := by omega
  by_cases hc : (cleanText b).length = 1
  · simp [mergePass, h', hc, hn]
  · simp [mergePass, h', hc]

theorem mergePass_cons_merge {b nb : List String} (rest2 : List (List String)) {e2 : String}
    (h3 : 3 ≤ b.length) (hc : (cleanText b).length = 1) (h3n : 3 ≤ nb.length)
    (he : (pySplitArrow (nb.getD 1 ""))[1]? = some e2) :
    mergePass (b :: nb :: rest2) =
      (mergePass rest2).map (fun ms =>
        [b.getD 0 "",
         pyStrip ((pySplitArrow (b.getD 1 "")).headD "") ++ " --> " ++ pyStrip e2,
         rawText b ++ rawText nb] :: ms) := by
  have h' : ¬ b.length < 3 := by omega
  have h'' : ¬ nb.length < 3 := by omega
  have hc' : (cleanText b).data.length = 1 := hc
  simp only [List.getD_eq_getElem?_getD] at he
  simp [mergePass, h', h'', hc', he]

theorem mergePass_cons_mergeFail {b nb : List String} (rest2 : List (List String))
    (h3 : 3 ≤ b.length) (hc : (cleanText b).length = 1) (h3n : 3 ≤ nb.length)
    (he : (pySplitArrow (nb.getD 1 ""))[1]? = none) :
    mergePass (b :: nb :: rest2) = none := by
  have h' : ¬ b.length < 3 := by omega
  have h'' : ¬ nb.length < 3 := by omega
  have hc' : (cleanText b).data.length = 1 := hc
  simp only [List.getD_eq_getElem?_getD] at he
  simp [mergePass, h', h'', hc', he]

/-! ### The rest-phrase filter is the identity on lines without `休` -/

theorem matchSpOpt_mem {t : Char} {cs r : List Char} (h : matchSpOpt t cs = some r) :
    t ∈ cs ∧ ∀ x ∈ r, x ∈ cs := by
  cases cs with
  | nil => simp [matchSpOpt] at h
  | cons c1 tl =>
    cases tl with
    | nil =>
      simp only [matchSpOpt] at h
      split_ifs at h with h1
      · cases h
        have ht : c1 = t := by simpa using h1
        subst ht
        exact ⟨by simp, by simp⟩
    | cons c2 rest =>
      simp only [matchSpOpt] at h
      split_ifs at h with h1 h2
      · cases h
        have ht : c2 = t := by
          have h1' := h1
          simp [Bool.and_eq_true] at h1'
          exact h1'.2
        subst ht
        exact ⟨by simp, fun x hx => by simp [hx]⟩
      · cases h
        have ht : c1 = t := by simpa using h2
        subst ht
        exact ⟨by simp, fun x hx => by simp [hx]⟩

theorem matchRestCore_mem {cs r : List Char} (h : matchRestCore cs = some r) :
    '休' ∈ cs := by
  unfold matchRestCore at h
  rw [Option.bind_eq_some] at h
  obtain ⟨r1, h1, h⟩ := h
  rw [Option.bind_eq_some] at h
  obtain ⟨r2, h2, h3⟩ := h
  exact (matchSpOpt_mem h1).2 _ ((matchSpOpt_mem h2).2 _ (matchSpOpt_mem h3).1)

theorem tryMatchV1_eq_none {cs : List Char} (h : '休' ∉ cs) : tryMatchV1 cs = none := by
  unfold tryMatchV1
  cases hc : matchRestCore cs with
  | none => rfl
  | some r => exact absurd (matchRestCore_mem hc) h

theorem tryMatchV2_eq_none {cs : List Char} (h : '休' ∉ cs) : tryMatchV2 cs = none := by
  unfold tryMatchV2
  cases hc : matchRestCore cs with
  | none => rfl
  | some r => exact absurd (matchRestCore_mem hc) h

theorem reSubGo_eq_self {tryM : List Char → Option (List Char)}
    (hM : ∀ cs, '休' ∉ cs → tryM cs = none) :
    ∀ (n : Nat) (cs : List Char), '休' ∉ cs → reSubGo tryM n cs = cs := by
  intro n
  induction n with
  | zero => intro cs _; rfl
  | succ n ih =>
    intro cs h
    cases cs with
    | nil => rfl
    | cons c rest =>
      have hno : '休' ∉ (c :: rest) := h
      rw [reSubGo, hM _ hno]
      have : '休' ∉ rest := fun hx => h (List.mem_cons_of_mem _ hx)
      rw [ih rest this]

theorem remove_v1_id {line : String} (h : '休' ∉ line.data) :
    remove_little_rest_phrases line = line := by
  unfold remove_little_rest_phrases
  rw [reSubGo_eq_self (fun cs hc => tryMatchV1_eq_none hc) _ _ h]

theorem remove_v2_id {line : String} (h : '休' ∉ line.data) :
    MergeTranslate.remove_little_rest_phrases line = line := by
  unfold MergeTranslate.remove_little_rest_phrases
  rw [reSubGo_eq_self (fun cs hc => tryMatchV2_eq_none hc) _ _ h]

/-! ### Claims C4, C3, C5, C7, C10 -/

/-- C4 counterexample: the two copies of `remove_little_rest_phrases` are
not extensionally equal.  On the line `少し休a.b.` the greedy `.+` regex of
`srt-onechar-join.py` removes everything up to the last punctuation mark,
while the `[^\.。\,\?]{1,}` regex of `srt_merge_and_translate.py` stops at
the first punctuation run and leaves `b.`. -/
theorem c4_counterexample :
    remove_little_rest_phrases "少し休a.b." = "" ∧
    MergeTranslate.remove_little_rest_phrases "少し休a.b." = "b." ∧
    remove_little_rest_phrases "少し休a.b." ≠
      MergeTranslate.remove_little_rest_phrases "少し休a.b." := by
  refine ⟨by decide, by decide, by decide⟩

/-- C4 (amended): the two copies of `remove_little_rest_phrases` agree on
every line in which the character `休` does not occur (both are then the
identity); they differ on lines matched by the rest-phrase patterns. -/
theorem c4_filters_agree_without_kyu (line : String) (h : '休' ∉ line.data) :
    remove_little_rest_phrases line = MergeTranslate.remove_little_rest_phrases line := by
  rw [remove_v1_id h, remove_v2_id h]

/-- Witness for `c4_filters_agree_without_kyu` at the line `少し休みます`
without the final punctuation... (a plain line without `休`). -/
theorem c4_filters_agree_without_kyu_witness :
    '休' ∉ ("ありがとうございました。".data) ∧
    remove_little_rest_phrases "ありがとうございました。" =
      MergeTranslate.remove_little_rest_phrases "ありがとうございました。" :=
  ⟨by decide, c4_filters_agree_without_kyu _ (by decide)⟩

/-- C3 counterexample: the block `["1", time, "あ少し休X。"]` compacts to
exactly one character (`あ`) *after* the rest-phrase redaction, and its
successor is well-formed, yet no merge occurs: the merge test is computed
from the original unfiltered lines (`text_parts` is sliced before the
in-place filtering), so both blocks are emitted separately. -/
theorem c3_counterexample :
    (cleanText (filterBlockLines
        ["1", "00:00:01,000 --> 00:00:02,000", "あ少し休X。"])).length = 1 ∧
    3 ≤ (["2", "00:00:02,000 --> 00:00:03,000", "い"] : List String).length ∧
    mergePass [["1", "00:00:01,000 --> 00:00:02,000", "あ少し休X。"],
               ["2", "00:00:02,000 --> 00:00:03,000", "い"]] =
      some [["1", "00:00:01,000 --> 00:00:02,000", "あ"],
            ["2", "00:00:02,000 --> 00:00:03,000", "い"]] := by
  refine ⟨by decide, by decide, by decide⟩

/-- C3 (amended): the rest-phrase redaction is applied in place to every
text line of a well-formed block, but the single-character merge test is
computed from the block's *original* lines, captured before the
redaction.  A well-formed block whose original compact text does not have
length 1 is emitted unmerged (with filtered lines) even when its filtered
text compacts to a single character. -/
theorem c3_merge_test_uses_unfiltered_lines (b : List String) (rest : List (List String))
    (h3 : 3 ≤ b.length) (hc : (cleanText b).length ≠ 1) :
    mergePass (b :: rest) = (mergePass rest).map (fun ms => filterBlockLines b :: ms) :=
  mergePass_cons_noMerge rest h3 hc

/-- Witness for `c3_merge_test_uses_unfiltered_lines`: the block whose
filtered text is the single character `あ` is still not merged. -/
theorem c3_merge_test_uses_unfiltered_lines_witness :
    3 ≤ (["1", "00:00:01,000 --> 00:00:02,000", "あ少し休X。"] : List String).length ∧
    (cleanText ["1", "00:00:01,000 --> 00:00:02,000", "あ少し休X。"]).length ≠ 1 ∧
    (cleanText (filterBlockLines
        ["1", "00:00:01,000 --> 00:00:02,000", "あ少し休X。"])).length = 1 ∧
    mergePass [["1", "00:00:01,000 --> 00:00:02,000", "あ少し休X。"],
               ["2", "00:00:02,000 --> 00:00:03,000", "い"]] =
      (mergePass [["2", "00:00:02,000 --> 00:00:03,000", "い"]]).map
        (fun ms =>
          filterBlockLines ["1", "00:00:01,000 --> 00:00:02,000", "あ少し休X。"] :: ms) :=
  ⟨by decide, by decide, by decide,
    c3_merge_test_uses_unfiltered_lines _ _ (by decide) (by decide)⟩

/-- C5: when a well-formed block whose compact text has length exactly 1
is merged with its well-formed successor, the replacement block is the
three-line block whose time range runs from the first block's start
timestamp (the stripped part before `-->` of its time line) to the
successor's end timestamp (the stripped part after `-->` of its time
line), and whose single text line is the direct concatenation of the two
blocks' texts with no separator; concretely, the blocks `あ` and
`りがとう` merge into the single block numbered 1 spanning
`00:00:01,000 --> 00:00:03,000` with text `ありがとう`. -/
theorem c5_merged_block_shape :
    (∀ (b nb : List String) (rest : List (List String)) (e2 : String),
        3 ≤ b.length → (cleanText b).length = 1 → 3 ≤ nb.length →
        (pySplitArrow (nb.getD 1 ""))[1]? = some e2 →
        mergePass (b :: nb :: rest) =
          (mergePass rest).map (fun ms =>
            [b.getD 0 "",
             pyStrip ((pySplitArrow (b.getD 1 "")).headD "") ++ " --> " ++ pyStrip e2,
             rawText b ++ rawText nb] :: ms)) ∧
    merge_single_char_captions
        "1\n00:00:01,000 --> 00:00:02,000\nあ\n\n2\n00:00:02,000 --> 00:00:03,000\nりがとう\n"
      = some "1\n00:00:01,000 --> 00:00:03,000\nありがとう\n" :=
  ⟨fun _ _ rest _ h1 h2 h3 h4 => mergePass_cons_merge rest h1 h2 h3 h4, by decide⟩

/-- Witness for the universally quantified part of `c5_merged_block_shape`,
instantiated at the spec's concrete scenario blocks. -/
theorem c5_merged_block_shape_witness :
    (cleanText ["1", "00:00:01,000 --> 00:00:02,000", "あ"]).length = 1 ∧
    (pySplitArrow ((["2", "00:00:02,000 --> 00:00:03,000", "りがとう"] : List String).getD 1 ""))[1]?
      = some " 00:00:03,000" ∧
    mergePass [["1", "00:00:01,000 --> 00:00:02,000", "あ"],
               ["2", "00:00:02,000 --> 00:00:03,000", "りがとう"]] =
      (mergePass []).map (fun ms =>
        [(["1", "00:00:01,000 --> 00:00:02,000", "あ"] : List String).getD 0 "",
         pyStrip ((pySplitArrow ((["1", "00:00:01,000 --> 00:00:02,000", "あ"] : List String).getD 1 "")).headD "")
           ++ " --> " ++ pyStrip " 00:00:03,000",
         rawText ["1", "00:00:01,000 --> 00:00:02,000", "あ"] ++
           rawText ["2", "00:00:02,000 --> 00:00:03,000", "りがとう"]] :: ms) :=
  ⟨by decide, by decide,
    c5_merged_block_shape.1 _ _ _ _ (by decide) (by decide) (by decide) (by decide)⟩

/-- C7: the scan resumes after a consumed pair: for three consecutive
well-formed blocks where the first is single-character (and also in
particular when all three are), the first two merge and the third is
emitted separately — the freshly merged block is not re-examined, so no
triple merge happens. -/
theorem c7_no_triple_merge (a b c : List String) (e2 : String)
    (h1 : 3 ≤ a.length) (h2 : (cleanText a).length = 1)
    (h3 : 3 ≤ b.length) (h4 : (pySplitArrow (b.getD 1 ""))[1]? = some e2)
    (h5 : 3 ≤ c.length) (h6 : filterBlockLines c = c) :
    mergePass [a, b, c] =
      some [[a.getD 0 "",
             pyStrip ((pySplitArrow (a.getD 1 "")).headD "") ++ " --> " ++ pyStrip e2,
             rawText a ++ rawText b],
            c] := by
  rw [mergePass_cons_merge [c] h1 h2 h3 h4, mergePass_singleton h5, h6]
  rfl

/-- Witness for `c7_no_triple_merge` at three consecutive single-character
blocks `あ`, `い`, `う`: the output is the merged pair `あい` followed by
the untouched third block, not `あいう`. -/
theorem c7_no_triple_merge_witness :
    (cleanText ["1", "00:00:01,000 --> 00:00:02,000", "あ"]).length = 1 ∧
    (cleanText ["2", "00:00:02,000 --> 00:00:03,000", "い"]).length = 1 ∧
    (cleanText ["3", "00:00:03,000 --> 00:00:04,000", "う"]).length = 1 ∧
    mergePass [["1", "00:00:01,000 --> 00:00:02,000", "あ"],
               ["2", "00:00:02,000 --> 00:00:03,000", "い"],
               ["3", "00:00:03,000 --> 00:00:04,000", "う"]] =
      some [[(["1", "00:00:01,000 --> 00:00:02,000", "あ"] : List String).getD 0 "",
             pyStrip ((pySplitArrow ((["1", "00:00:01,000 --> 00:00:02,000", "あ"] : List String).getD 1 "")).headD "")
               ++ " --> " ++ pyStrip " 00:00:03,000",
             rawText ["1", "00:00:01,000 --> 00:00:02,000", "あ"] ++
               rawText ["2", "00:00:02,000 --> 00:00:03,000", "い"]],
            ["3", "00:00:03,000 --> 00:00:04,000", "う"]] :=
  ⟨by decide, by decide, by decide,
    c7_no_triple_merge _ _ _ _ (by decide) (by decide) (by decide) (by decide)
      (by decide) (by decide)⟩

/-- C10: serialized text provenance.  A well-formed block emitted without
merging carries the rest-phrase-filtered versions of its original text
lines (the in-place mutation), while the text of a merged pair is built
from the *original unfiltered* text lines of both blocks (`text_parts`
and `next_text_parts` are slice copies of the raw lines), so the
redaction has no effect on a merged block's output text. -/
theorem c10_filtered_for_unmerged_raw_for_merged :
    (∀ (b : List String) (rest : List (List String)) (ms : List (List String)),
        3 ≤ b.length → (cleanText b).length ≠ 1 →
        mergePass (b :: rest) = some ms →
        ms.headD [] = b.take 2 ++ (b.drop 2).map remove_little_rest_phrases) ∧
    (∀ (b nb : List String) (rest : List (List String)) (e2 : String)
        (ms : List (List String)),
        3 ≤ b.length → (cleanText b).length = 1 → 3 ≤ nb.length →
        (pySplitArrow (nb.getD 1 ""))[1]? = some e2 →
        mergePass (b :: nb :: rest) = some ms →
        (ms.headD []).getD 2 "" =
          pyStrip (pyJoin " " (b.drop 2)) ++ pyStrip (pyJoin " " (nb.drop 2))) := by
  constructor
  · intro b rest ms h3 hc hms
    rw [mergePass_cons_noMerge rest h3 hc] at hms
    obtain ⟨ms', _, rfl⟩ := Option.map_eq_some'.1 hms
    rfl
  · intro b nb rest e2 ms h3 hc h3n he hms
    rw [mergePass_cons_merge rest h3 hc h3n he] at hms
    obtain ⟨ms', _, rfl⟩ := Option.map_eq_some'.1 hms
    rfl

/-- Witness for `c10_filtered_for_unmerged_raw_for_merged`: the unmerged
block `あ少し休X。` is emitted with its filtered line `あ`, and the merged
pair `あ` + `りがとう` emits the raw concatenation. -/
theorem c10_filtered_for_unmerged_raw_for_merged_witness :
    mergePass [["1", "00:00:01,000 --> 00:00:02,000", "あ少し休X。"],
               ["2", "00:00:02,000 --> 00:00:03,000", "い"]] =
      some [["1", "00:00:01,000 --> 00:00:02,000", "あ"],
            ["2", "00:00:02,000 --> 00:00:03,000", "い"]] ∧
    ([["1", "00:00:01,000 --> 00:00:02,000", "あ"],
      ["2", "00:00:02,000 --> 00:00:03,000", "い"]] : List (List String)).headD [] =
      (["1", "00:00:01,000 --> 00:00:02,000", "あ少し休X。"] : List String).take 2 ++
        ((["1", "00:00:01,000 --> 00:00:02,000", "あ少し休X。"] : List String).drop 2).map
          remove_little_rest_phrases ∧
    mergePass [["1", "00:00:01,000 --> 00:00:02,000", "あ"],
               ["2", "00:00:02,000 --> 00:00:03,000", "りがとう"]] =
      some [["1", "00:00:01,000 --> 00:00:03,000", "ありがとう"]] ∧
    (([["1", "00:00:01,000 --> 00:00:03,000", "ありがとう"]] :
        List (List String)).headD []).getD 2 "" =
      pyStrip (pyJoin " " ((["1", "00:00:01,000 --> 00:00:02,000", "あ"] : List String).drop 2)) ++
      pyStrip (pyJoin " " ((["2", "00:00:02,000 --> 00:00:03,000", "りがとう"] : List String).drop 2)) := by
  refine ⟨by decide, ?_, by decide, ?_⟩
  · exact c10_filtered_for_unmerged_raw_for_merged.1
      ["1", "00:00:01,000 --> 00:00:02,000", "あ少し休X。"]
      [["2", "00:00:02,000 --> 00:00:03,000", "い"]]
      [["1", "00:00:01,000 --> 00:00:02,000", "あ"],
       ["2", "00:00:02,000 --> 00:00:03,000", "い"]]
      (by decide) (by decide) (by decide)
  · exact c10_filtered_for_unmerged_raw_for_merged.2
      ["1", "00:00:01,000 --> 00:00:02,000", "あ"]
      ["2", "00:00:02,000 --> 00:00:03,000", "りがとう"] [] " 00:00:03,000"
      [["1", "00:00:01,000 --> 00:00:03,000", "ありがとう"]]
      (by decide) (by decide) (by decide) (by decide) (by decide)

/-! ### Claims C6, C8, C9, C1 -/

theorem filterBlockLines_length (b : List String) :
    (filterBlockLines b).length = b.length := by
  simp [filterBlockLines]
  omega

theorem mergePass_malformed_filter :
    ∀ (bs ms : List (List String)), mergePass bs = some ms →
      ms.filter (fun b => b.length < 3) = bs.filter (fun b => b.length < 3) := by
  intro bs
  induction bs using mergePass.induct with
  | case1 =>
    intro ms h
    rw [mergePass_nil] at h
    cases h
    rfl
  | case2 b rest h ih =>
    intro ms hm
    rw [mergePass_cons_malformed rest h] at hm
    obtain ⟨ms', hms', rfl⟩ := Option.map_eq_some'.1 hm
    simpa [List.filter_cons, h] using ih _ hms'
  | case3 b h =>
    intro ms hm
    have h3 : 3 ≤ b.length := by omega
    rw [mergePass_singleton h3] at hm
    cases hm
    have hfb : ¬ (filterBlockLines b).length < 3 := by
      rw [filterBlockLines_length]; omega
    simp [List.filter_cons, hfb, h]
  | case4 b h0 nb rest2 hclean hn ih =>
    intro ms hm
    have h3 : 3 ≤ b.length := by omega
    rw [mergePass_cons_nextMalformed rest2 h3 hn] at hm
    obtain ⟨ms', hms', rfl⟩ := Option.map_eq_some'.1 hm
    have hfb : ¬ (filterBlockLines b).length < 3 := by
      rw [filterBlockLines_length]; omega
    simpa [List.filter_cons, hfb, h0] using ih _ hms'
  | case5 b h0 nb rest2 hclean hn hx =>
    intro ms hm
    have h3 : 3 ≤ b.length := by omega
    have h3n : 3 ≤ nb.length := by omega
    have hc : (cleanText b).length = 1 := by simpa using hclean
    rw [mergePass_cons_mergeFail rest2 h3 hc h3n hx] at hm
    simp at hm
  | case6 b h0 nb rest2 hclean hn e2 hx ih =>
    intro ms hm
    have h3 : 3 ≤ b.length := by omega
    have h3n : 3 ≤ nb.length := by omega
    have hc : (cleanText b).length = 1 := by simpa using hclean
    rw [mergePass_cons_merge rest2 h3 hc h3n hx] at hm
    obtain ⟨ms', hms', rfl⟩ := Option.map_eq_some'.1 hm
    simpa [List.filter_cons, h0, hn] using ih _ hms'
  | case7 b h0 nb rest2 hne ih =>
    intro ms hm
    have h3 : 3 ≤ b.length := by omega
    have hc : (cleanText b).length ≠ 1 := by simpa using hne
    rw [mergePass_cons_noMerge _ h3 hc] at hm
    obtain ⟨ms', hms', rfl⟩ := Option.map_eq_some'.1 hm
    have hfb : ¬ (filterBlockLines b).length < 3 := by
      rw [filterBlockLines_length]; omega
    simpa [List.filter_cons, hfb, h0] using ih _ hms'

theorem serLines_wf_filter (ms : List (List String)) :
    ∀ n : Nat, serLines n (ms.filter (fun b => 3 ≤ b.length)) = serLines n ms := by
  induction ms with
  | nil => intro n; rfl
  | cons b rest ih =>
    intro n
    by_cases h : b.length < 3
    · have h' : ¬ 3 ≤ b.length := by omega
      simp [List.filter_cons, h', serLines, h, ih n]
    · have h3 : 3 ≤ b.length := by omega
      simp [List.filter_cons, h3, serLines, h, ih (n + 1)]

/-- C6: a block with fewer than 3 raw lines passes through the merge scan
unchanged and is never consumed by a merge — the malformed blocks of the
scan's output are exactly, in order and verbatim, the malformed blocks of
its input — and serialization ignores every malformed block, so none of
its lines reach the returned text. -/
theorem c6_malformed_pass_through (bs ms : List (List String))
    (hm : mergePass bs = some ms) :
    ms.filter (fun b => b.length < 3) = bs.filter (fun b => b.length < 3) ∧
    serializeDoc ms = serializeDoc (ms.filter (fun b => 3 ≤ b.length)) := by
  refine ⟨mergePass_malformed_filter bs ms hm, ?_⟩
  unfold serializeDoc
  rw [serLines_wf_filter]

/-- Witness for `c6_malformed_pass_through` on a document containing the
spec's malformed block `12 / not-a-time-range`. -/
theorem c6_malformed_pass_through_witness :
    mergePass [["1", "00:00:01,000 --> 00:00:02,000", "xyz"],
               ["12", "not-a-time-range"],
               ["2", "00:00:02,000 --> 00:00:03,000", "abc"]] =
      some [["1", "00:00:01,000 --> 00:00:02,000", "xyz"],
            ["12", "not-a-time-range"],
            ["2", "00:00:02,000 --> 00:00:03,000", "abc"]] ∧
    ([["1", "00:00:01,000 --> 00:00:02,000", "xyz"],
      ["12", "not-a-time-range"],
      ["2", "00:00:02,000 --> 00:00:03,000", "abc"]] :
        List (List String)).filter (fun b => b.length < 3) =
      ([["1", "00:00:01,000 --> 00:00:02,000", "xyz"],
        ["12", "not-a-time-range"],
        ["2", "00:00:02,000 --> 00:00:03,000", "abc"]] :
          List (List String)).filter (fun b => b.length < 3) ∧
    serializeDoc [["1", "00:00:01,000 --> 00:00:02,000", "xyz"],
                  ["12", "not-a-time-range"],
                  ["2", "00:00:02,000 --> 00:00:03,000", "abc"]] =
      serializeDoc (([["1", "00:00:01,000 --> 00:00:02,000", "xyz"],
                      ["12", "not-a-time-range"],
                      ["2", "00:00:02,000 --> 00:00:03,000", "abc"]] :
          List (List String)).filter (fun b => 3 ≤ b.length)) := by
  refine ⟨by decide, ?_, ?_⟩
  · exact (c6_malformed_pass_through
      [["1", "00:00:01,000 --> 00:00:02,000", "xyz"],
       ["12", "not-a-time-range"],
       ["2", "00:00:02,000 --> 00:00:03,000", "abc"]]
      [["1", "00:00:01,000 --> 00:00:02,000", "xyz"],
       ["12", "not-a-time-range"],
       ["2", "00:00:02,000 --> 00:00:03,000", "abc"]] (by decide)).1
  · exact (c6_malformed_pass_through
      [["1", "00:00:01,000 --> 00:00:02,000", "xyz"],
       ["12", "not-a-time-range"],
       ["2", "00:00:02,000 --> 00:00:03,000", "abc"]]
      [["1", "00:00:01,000 --> 00:00:02,000", "xyz"],
       ["12", "not-a-time-range"],
       ["2", "00:00:02,000 --> 00:00:03,000", "abc"]] (by decide)).2

theorem mergePassN_nil : mergePassN [] = some ([], 0) := rfl

theorem mergePassN_cons_malformed {b : List String} (rest : List (List String))
    (h : b.length < 3) :
    mergePassN (b :: rest) = (mergePassN rest).map (fun p => (b :: p.1, p.2)) := by
  cases rest <;> simp [mergePassN, h]

theorem mergePassN_singleton {b : List String} (h : 3 ≤ b.length) :
    mergePassN [b] = some ([filterBlockLines b], 0) := by
  have h' : ¬ b.length < 3 := by omega
  simp [mergePassN, h']

theorem mergePassN_cons_noMerge {b : List String} (rest : List (List String))
    (h3 : 3 ≤ b.length) (hc : (cleanText b).length ≠ 1) :
    mergePassN (b :: rest) =
      (mergePassN rest).map (fun p => (filterBlockLines b :: p.1, p.2)) := by
  have h' : ¬ b.length < 3 := by omega
  cases rest with
  | nil => simp [mergePassN, h']
  | cons nb rest2 => simp [mergePassN, h', hc]

theorem mergePassN_cons_nextMalformed {b nb : List String} (rest2 : List (List String))
    (h3 : 3 ≤ b.length) (hn : nb.length < 3) :
    mergePassN (b :: nb :: rest2) =
      (mergePassN (nb :: rest2)).map (fun p => (filterBlockLines b :: p.1, p.2)) := by
  have h' : ¬ b.length < 3 := by omega
  by_cases hc : (cleanText b).length = 1
  · simp [mergePassN, h', hc, hn]
  · simp [mergePassN, h', hc]

theorem mergePassN_cons_merge {b nb : List String} (rest2 : List (List String)) {e2 : String}
    (h3 : 3 ≤ b.length) (hc : (cleanText b).length = 1) (h3n : 3 ≤ nb.length)
    (he : (pySplitArrow (nb.getD 1 ""))[1]? = some e2) :
    mergePassN (b :: nb :: rest2) =
      (mergePassN rest2).map (fun p =>
        ([b.getD 0 "",
          pyStrip ((pySplitArrow (b.getD 1 "")).headD "") ++ " --> " ++ pyStrip e2,
          rawText b ++ rawText nb] :: p.1, p.2 + 1)) := by
  have h' : ¬ b.length < 3 := by omega
  have h'' : ¬ nb.length < 3 := by omega
  have hc' : (cleanText b).data.length = 1 := hc
  simp only [List.getD_eq_getElem?_getD] at he
  simp [mergePassN, h', h'', hc', he]

theorem mergePassN_cons_mergeFail {b nb : List String} (rest2 : List (List String))
    (h3 : 3 ≤ b.length) (hc : (cleanText b).length = 1) (h3n : 3 ≤ nb.length)
    (he : (pySplitArrow (nb.getD 1 ""))[1]? = none) :
    mergePassN (b :: nb :: rest2) = none := by
  have h' : ¬ b.length < 3 := by omega
  have h'' : ¬ nb.length < 3 := by omega
  have hc' : (cleanText b).data.length = 1 := hc
  simp only [List.getD_eq_getElem?_getD] at he
  simp [mergePassN, h', h'', hc', he]

theorem mergePassN_fst : ∀ bs : List (List String),
    mergePass bs = (mergePassN bs).map Prod.fst := by
  intro bs
  induction bs using mergePassN.induct with
  | case1 => rfl
  | case2 b rest h ih =>
    rw [mergePass_cons_malformed rest h, mergePassN_cons_malformed rest h, ih]
    cases mergePassN rest <;> rfl
  | case3 b h =>
    rw [mergePass_singleton (by omega), mergePassN_singleton (by omega)]
    rfl
  | case4 b h0 nb rest2 hclean hn ih =>
    rw [mergePass_cons_nextMalformed rest2 (by omega) hn,
      mergePassN_cons_nextMalformed rest2 (by omega) hn, ih]
    cases mergePassN (nb :: rest2) <;> rfl
  | case5 b h0 nb rest2 hclean hn hx =>
    have hc : (cleanText b).length = 1 := by simpa using hclean
    rw [mergePass_cons_mergeFail rest2 (by omega) hc (by omega) hx,
      mergePassN_cons_mergeFail rest2 (by omega) hc (by omega) hx]
    rfl
  | case6 b h0 nb rest2 hclean hn e2 hx ih =>
    have hc : (cleanText b).length = 1 := by simpa using hclean
    rw [mergePass_cons_merge rest2 (by omega) hc (by omega) hx,
      mergePassN_cons_merge rest2 (by omega) hc (by omega) hx, ih]
    cases mergePassN rest2 <;> rfl
  | case7 b h0 nb rest2 hne ih =>
    have hc : (cleanText b).length ≠ 1 := by simpa using hne
    rw [mergePass_cons_noMerge _ (by omega) hc, mergePassN_cons_noMerge _ (by omega) hc, ih]
    cases mergePassN (nb :: rest2) <;> rfl

theorem wfCount_cons_wf {b : List String} (l : List (List String)) (h : 3 ≤ b.length) :
    wfCount (b :: l) = wfCount l + 1 := by
  simp [wfCount, List.filter_cons, h]

theorem wfCount_cons_malformed {b : List String} (l : List (List String))
    (h : b.length < 3) : wfCount (b :: l) = wfCount l := by
  have h' : ¬ 3 ≤ b.length := by omega
  simp [wfCount, List.filter_cons, h']

theorem mergePassN_count : ∀ (bs ms : List (List String)) (k : Nat),
    mergePassN bs = some (ms, k) → wfCount ms + k = wfCount bs := by
  intro bs
  induction bs using mergePassN.induct with
  | case1 =>
    intro ms k h
    rw [mergePassN_nil] at h
    cases h
    rfl
  | case2 b rest h ih =>
    intro ms k hm
    rw [mergePassN_cons_malformed rest h] at hm
    obtain ⟨⟨p1, p2⟩, hp, hpe⟩ := Option.map_eq_some'.1 hm
    cases hpe
    rw [wfCount_cons_malformed _ h, wfCount_cons_malformed _ h]
    exact ih p1 p2 hp
  | case3 b h =>
    intro ms k hm
    rw [mergePassN_singleton (by omega)] at hm
    cases hm
    have h1 : wfCount [filterBlockLines b] = wfCount ([] : List (List String)) + 1 :=
      wfCount_cons_wf _ (by rw [filterBlockLines_length]; omega)
    have h2 : wfCount [b] = wfCount ([] : List (List String)) + 1 :=
      wfCount_cons_wf _ (by omega)
    rw [h1, h2]
  | case4 b h0 nb rest2 hclean hn ih =>
    intro ms k hm
    rw [mergePassN_cons_nextMalformed rest2 (by omega) hn] at hm
    obtain ⟨⟨p1, p2⟩, hp, hpe⟩ := Option.map_eq_some'.1 hm
    cases hpe
    have h1 : wfCount (filterBlockLines b :: p1) = wfCount p1 + 1 :=
      wfCount_cons_wf _ (by rw [filterBlockLines_length]; omega)
    rw [h1, wfCount_cons_wf _ (by omega)]
    have := ih p1 p2 hp
    omega
  | case5 b h0 nb rest2 hclean hn hx =>
    intro ms k hm
    have hc : (cleanText b).length = 1 := by simpa using hclean
    rw [mergePassN_cons_mergeFail rest2 (by omega) hc (by omega) hx] at hm
    simp at hm
  | case6 b h0 nb rest2 hclean hn e2 hx ih =>
    intro ms k hm
    have hc : (cleanText b).length = 1 := by simpa using hclean
    rw [mergePassN_cons_merge rest2 (by omega) hc (by omega) hx] at hm
    obtain ⟨⟨p1, p2⟩, hp, hpe⟩ := Option.map_eq_some'.1 hm
    cases hpe
    have h1 : wfCount ([b.getD 0 "",
        pyStrip ((pySplitArrow (b.getD 1 "")).headD "") ++ " --> " ++ pyStrip e2,
        rawText b ++ rawText nb] :: p1) = wfCount p1 + 1 :=
      wfCount_cons_wf _ (by simp)
    rw [h1, wfCount_cons_wf _ (by omega), wfCount_cons_wf _ (by omega)]
    have := ih p1 p2 hp
    omega
  | case7 b h0 nb rest2 hne ih =>
    intro ms k hm
    have hc : (cleanText b).length ≠ 1 := by simpa using hne
    rw [mergePassN_cons_noMerge _ (by omega) hc] at hm
    obtain ⟨⟨p1, p2⟩, hp, hpe⟩ := Option.map_eq_some'.1 hm
    cases hpe
    have h1 : wfCount (filterBlockLines b :: p1) = wfCount p1 + 1 :=
      wfCount_cons_wf _ (by rw [filterBlockLines_length]; omega)
    rw [h1, wfCount_cons_wf _ (by omega)]
    have := ih p1 p2 hp
    omega

/-- C8: count invariant.  When the instrumented scan performs `k` merges,
the scan's output agrees with `mergePass` and contains exactly `k` fewer
well-formed blocks than the input (each merge consumes two well-formed
blocks and emits one); in particular the output count never exceeds the
input count. -/
theorem c8_count_invariant (bs ms : List (List String)) (k : Nat)
    (h : mergePassN bs = some (ms, k)) :
    mergePass bs = some ms ∧ wfCount ms + k = wfCount bs ∧ wfCount ms ≤ wfCount bs := by
  have h1 : mergePass bs = some ms := by rw [mergePassN_fst bs, h]; rfl
  have h2 := mergePassN_count bs ms k h
  exact ⟨h1, h2, by omega⟩

/-- Witness for `c8_count_invariant`: one merge, two well-formed blocks
in, one out. -/
theorem c8_count_invariant_witness :
    mergePassN [["1", "00:00:01,000 --> 00:00:02,000", "あ"],
                ["2", "00:00:02,000 --> 00:00:03,000", "りがとう"]] =
      some ([["1", "00:00:01,000 --> 00:00:03,000", "ありがとう"]], 1) ∧
    (mergePass [["1", "00:00:01,000 --> 00:00:02,000", "あ"],
                ["2", "00:00:02,000 --> 00:00:03,000", "りがとう"]] =
        some [["1", "00:00:01,000 --> 00:00:03,000", "ありがとう"]] ∧
      wfCount [["1", "00:00:01,000 --> 00:00:03,000", "ありがとう"]] + 1 =
        wfCount [["1", "00:00:01,000 --> 00:00:02,000", "あ"],
                 ["2", "00:00:02,000 --> 00:00:03,000", "りがとう"]] ∧
      wfCount [["1", "00:00:01,000 --> 00:00:03,000", "ありがとう"]] ≤
        wfCount [["1", "00:00:01,000 --> 00:00:02,000", "あ"],
                 ["2", "00:00:02,000 --> 00:00:03,000", "りがとう"]]) :=
  ⟨by decide, c8_count_invariant _ _ _ (by decide)⟩

theorem serLines_renumber (ms : List (List String)) :
    ∀ n : Nat, serLines n ms =
      (List.zipWith
        (fun i b => [toString i, b.getD 1 "", b.getD 2 ""] ++ b.drop 3 ++ [""])
        (List.range' n (wfCount ms))
        (ms.filter (fun b => 3 ≤ b.length))).flatten := by
  induction ms with
  | nil => intro n; rfl
  | cons b rest ih =>
    intro n
    by_cases h : b.length < 3
    · have h' : ¬ 3 ≤ b.length := by omega
      rw [wfCount_cons_malformed _ h]
      simp [serLines, h, List.filter_cons, h', ih n]
    · have h3 : 3 ≤ b.length := by omega
      rw [wfCount_cons_wf _ h3, List.range'_succ n (wfCount rest) 1]
      simp [serLines, h, List.filter_cons, h3, ih (n + 1)]

/-- C9: renumbering.  The serialized lines are exactly, per emitted
(≥3-line) block in order, the decimal numeral of its 1-based emission
index, its time line, its text lines and a blank separator — so the
sequence-number lines are exactly `1..N` where `N` is the number of
emitted blocks, regardless of the number lines the blocks carried. -/
theorem c9_renumbering (ms : List (List String)) :
    serLines 1 ms =
      (List.zipWith
        (fun i b => [toString i, b.getD 1 "", b.getD 2 ""] ++ b.drop 3 ++ [""])
        (List.range' 1 (wfCount ms))
        (ms.filter (fun b => 3 ≤ b.length))).flatten :=
  serLines_renumber ms 1

theorem mergePass_isSome_of_arrows : ∀ bs : List (List String),
    (∀ b ∈ bs, 3 ≤ b.length → 2 ≤ (pySplitArrow (b.getD 1 "")).length) →
    (mergePass bs).isSome := by
  intro bs
  induction bs using mergePass.induct with
  | case1 => intro _; rfl
  | case2 b rest h ih =>
    intro hall
    rw [mergePass_cons_malformed rest h, Option.isSome_map']
    exact ih (fun b' hb' => hall b' (List.mem_cons_of_mem _ hb'))
  | case3 b h =>
    intro _
    rw [mergePass_singleton (by omega)]
    rfl
  | case4 b h0 nb rest2 hclean hn ih =>
    intro hall
    rw [mergePass_cons_nextMalformed rest2 (by omega) hn, Option.isSome_map']
    exact ih (fun b' hb' => hall b' (List.mem_cons_of_mem _ hb'))
  | case5 b h0 nb rest2 hclean hn hx =>
    intro hall
    exfalso
    have h2 : 2 ≤ (pySplitArrow (nb.getD 1 "")).length :=
      hall nb (by simp) (by omega)
    have := List.getElem?_eq_none_iff.1 hx
    omega
  | case6 b h0 nb rest2 hclean hn e2 hx ih =>
    intro hall
    have hc : (cleanText b).length = 1 := by simpa using hclean
    rw [mergePass_cons_merge rest2 (by omega) hc (by omega) hx, Option.isSome_map']
    exact ih (fun b' hb' =>
      hall b' (List.mem_cons_of_mem _ (List.mem_cons_of_mem _ hb')))
  | case7 b h0 nb rest2 hne ih =>
    intro hall
    have hc : (cleanText b).length ≠ 1 := by simpa using hne
    rw [mergePass_cons_noMerge _ (by omega) hc, Option.isSome_map']
    exact ih (fun b' hb' => hall b' (List.mem_cons_of_mem _ hb'))

/-- C1 counterexample: `merge_single_char_captions` is *not* total when a
well-formed block's second line lacks `-->`: a single-character block
followed by a well-formed block whose time line has no separator reaches
`next_time_line.split('-->')[1]`, an `IndexError` (modelled as `none`). -/
theorem c1_counterexample :
    merge_single_char_captions
      "1\n00:00:01,000 --> 00:00:02,000\nあ\n\n2\nBADTIME\nx\n" = none := by
  decide

/-- C1 (amended): the combined parse/merge/serialize transform returns a
string on every input in which each well-formed parsed block's second
line contains the `-->` separator (it never validates timestamp syntax
beyond that); the only failure path is a merge consuming a successor
whose second line lacks `-->`. -/
theorem c1_no_exception_when_arrow_present (x : String)
    (h : ∀ b ∈ parseDocument x, 3 ≤ b.length →
      2 ≤ (pySplitArrow (b.getD 1 "")).length) :
    (merge_single_char_captions x).isSome := by
  unfold merge_single_char_captions
  rw [Option.isSome_map']
  exact mergePass_isSome_of_arrows _ h

/-- Witness for `c1_no_exception_when_arrow_present`. -/
theorem c1_no_exception_when_arrow_present_witness :
    (∀ b ∈ parseDocument
        "1\n00:00:01,000 --> 00:00:02,000\nあ\n\n2\n00:00:02,000 --> 00:00:03,000\nりがとう\n",
      3 ≤ b.length → 2 ≤ (pySplitArrow (b.getD 1 "")).length) ∧
    (merge_single_char_captions
      "1\n00:00:01,000 --> 00:00:02,000\nあ\n\n2\n00:00:02,000 --> 00:00:03,000\nりがとう\n").isSome :=
  ⟨by decide, c1_no_exception_when_arrow_present _ (by decide)⟩

/-! ### Utilities for strip, whitespace and digits (towards idempotence) -/

theorem pyRStripL_subset {l : List Char} : ∀ c ∈ pyRStripL l, c ∈ l := by
  intro c hc
  unfold pyRStripL at hc
  rw [List.mem_reverse] at hc
  have := (List.dropWhile_sublist (l := l.reverse) (p := pyIsSpace)).subset hc
  simpa using this

theorem pyStripL_subset {l : List Char} : ∀ c ∈ pyStripL l, c ∈ l := by
  intro c hc
  unfold pyStripL at hc
  exact (List.dropWhile_sublist (l := l) (p := pyIsSpace)).subset (pyRStripL_subset _ hc)

theorem pyRStripL_eq_nil_iff {l : List Char} :
    pyRStripL l = [] ↔ ∀ c ∈ l, pyIsSpace c = true := by
  simp [pyRStripL, List.dropWhile_eq_nil_iff, List.mem_reverse]

theorem forall_ws_dropWhile {l : List Char} :
    (∀ c ∈ l.dropWhile pyIsSpace, pyIsSpace c = true) ↔
      (∀ c ∈ l, pyIsSpace c = true) := by
  constructor
  · intro h c hc
    rw [← List.takeWhile_append_dropWhile (p := pyIsSpace) (l := l)] at hc
    rcases List.mem_append.1 hc with h1 | h2
    · exact List.mem_takeWhile_imp h1
    · exact h c h2
  · intro h c hc
    exact h c ((List.dropWhile_sublist (l := l) (p := pyIsSpace)).subset hc)

theorem pyStripL_eq_nil_iff {l : List Char} :
    pyStripL l = [] ↔ ∀ c ∈ l, pyIsSpace c = true := by
  unfold pyStripL
  rw [pyRStripL_eq_nil_iff, forall_ws_dropWhile]

theorem filter_nonws_dropWhile {l : List Char} :
    (l.dropWhile pyIsSpace).filter (fun c => !pyIsSpace c) =
      l.filter (fun c => !pyIsSpace c) := by
  induction l with
  | nil => rfl
  | cons c t ih =>
    by_cases h : pyIsSpace c
    · simp [List.dropWhile_cons, h, List.filter_cons, ih]
    · simp [List.dropWhile_cons, h, List.filter_cons]

theorem filter_nonws_pyRStripL {l : List Char} :
    (pyRStripL l).filter (fun c => !pyIsSpace c) =
      l.filter (fun c => !pyIsSpace c) := by
  unfold pyRStripL
  rw [List.filter_reverse, filter_nonws_dropWhile, List.filter_reverse,
    List.reverse_reverse]

theorem filter_nonws_pyStripL {l : List Char} :
    (pyStripL l).filter (fun c => !pyIsSpace c) =
      l.filter (fun c => !pyIsSpace c) := by
  unfold pyStripL
  rw [filter_nonws_pyRStripL, filter_nonws_dropWhile]

theorem dropWhile_dropWhile {p : Char → Bool} {l : List Char} :
    (l.dropWhile p).dropWhile p = l.dropWhile p := by
  induction l with
  | nil => rfl
  | cons c t ih =>
    by_cases h : p c
    · simp [List.dropWhile_cons, h, ih]
    · simp [List.dropWhile_cons, h]

theorem pyRStripL_idem {l : List Char} : pyRStripL (pyRStripL l) = pyRStripL l := by
  unfold pyRStripL
  rw [List.reverse_reverse, dropWhile_dropWhile]

theorem pyRStripL_append_ws {l : List Char} {c : Char} (h : pyIsSpace c = true) :
    pyRStripL (l ++ [c]) = pyRStripL l := by
  unfold pyRStripL
  simp [List.reverse_append, List.dropWhile_cons, h]

theorem pyRStripL_append_keep {l m : List Char} (h : ∃ c ∈ m, pyIsSpace c = false) :
    pyRStripL (l ++ m) = l ++ pyRStripL m := by
  unfold pyRStripL
  rw [List.reverse_append, List.dropWhile_append]
  have hne : ¬ (m.reverse.dropWhile pyIsSpace).isEmpty := by
    rw [List.isEmpty_iff, List.dropWhile_eq_nil_iff]
    intro hall
    obtain ⟨c, hc, hw⟩ := h
    have := hall c (by simpa using hc)
    rw [hw] at this
    cases this
  rw [if_neg hne, List.reverse_append, List.reverse_reverse]

theorem pyRStripL_sfx (l : List Char) :
    ∃ s, l = pyRStripL l ++ s ∧ ∀ c ∈ s, pyIsSpace c = true := by
  refine ⟨(l.reverse.takeWhile pyIsSpace).reverse, ?_, ?_⟩
  · have h2 : l.reverse.reverse =
        (List.takeWhile pyIsSpace l.reverse ++ List.dropWhile pyIsSpace l.reverse).reverse := by
      rw [List.takeWhile_append_dropWhile]
    rw [List.reverse_reverse, List.reverse_append] at h2
    exact h2
  · intro c hc
    exact List.mem_takeWhile_imp (by simpa using hc)

theorem toDigitsCore_all (P : Char → Prop) (hd : ∀ m : Fin 10, P (Nat.digitChar m.val)) :
    ∀ (f n : Nat) (acc : List Char), (∀ c ∈ acc, P c) →
      ∀ c ∈ Nat.toDigitsCore 10 f n acc, P c := by
  intro f
  induction f with
  | zero =>
    intro n acc hacc c hc
    exact hacc c (by simpa [Nat.toDigitsCore] using hc)
  | succ f ih =>
    intro n acc hacc c hc
    have hd' : P (Nat.digitChar (n % 10)) := hd ⟨n % 10, Nat.mod_lt _ (by norm_num)⟩
    by_cases h : n / 10 = 0
    · simp [Nat.toDigitsCore, h] at hc
      rcases hc with rfl | hc
      · exact hd'
      · exact hacc c hc
    · simp only [Nat.toDigitsCore, h, if_false] at hc
      refine ih (n / 10) _ (fun c' hc' => ?_) c hc
      rcases List.mem_cons.1 hc' with rfl | h2
      · exact hd'
      · exact hacc _ h2

theorem toDigitsCore_length_ge : ∀ (f n : Nat) (acc : List Char),
    acc.length ≤ (Nat.toDigitsCore 10 f n acc).length := by
  intro f
  induction f with
  | zero => intro n acc; simp [Nat.toDigitsCore]
  | succ f ih =>
    intro n acc
    by_cases h : n / 10 = 0
    · simp [Nat.toDigitsCore, h]
    · simp only [Nat.toDigitsCore, h, if_false]
      calc acc.length ≤ (Nat.digitChar (n % 10) :: acc).length := by simp
        _ ≤ _ := ih _ _

theorem toString_nat_data (n : Nat) :
    (toString n).data = Nat.toDigitsCore 10 (n + 1) n [] := by
  rfl

theorem toString_nat_ne_nil (n : Nat) : (toString n).data ≠ [] := by
  rw [toString_nat_data]
  by_cases h : n / 10 = 0
  · simp [Nat.toDigitsCore, h]
  · simp only [Nat.toDigitsCore, h, if_false]
    intro heq
    have := toDigitsCore_length_ge n (n / 10) [Nat.digitChar (n % 10)]
    rw [heq] at this
    simp at this

theorem toString_nat_chars (n : Nat) :
    ∀ c ∈ (toString n).data, pyIsSpace c = false ∧ isLineBreak c = false ∧ c ≠ '休' := by
  intro c hc
  rw [toString_nat_data] at hc
  exact toDigitsCore_all
    (fun c => pyIsSpace c = false ∧ isLineBreak c = false ∧ c ≠ '休')
    (by decide) (n + 1) n [] (by simp) c hc

theorem toString_nat_LineOK (n : Nat) : LineOK (toString n) := by
  refine ⟨?_, ?_, ?_⟩
  · intro hc
    exact (toString_nat_chars n _ hc).2.2 rfl
  · intro c hc
    exact (toString_nat_chars n c hc).2.1
  · show ¬ (pyStripL (toString n).data).isEmpty
    rw [List.isEmpty_iff, pyStripL_eq_nil_iff]
    intro hall
    obtain ⟨c, hc⟩ := List.exists_mem_of_ne_nil _ (toString_nat_ne_nil n)
    have h1 := hall c hc
    have h2 := (toString_nat_chars n c hc).1
    rw [h1] at h2
    cases h2

/-! ### splitlines / join / parse roundtrip lemmas -/

theorem splitlinesGo_no_breaks : ∀ (w acc : List Char),
    (∀ c ∈ w, isLineBreak c = false) → acc.reverse ++ w ≠ [] →
    splitlinesGo w acc = [⟨acc.reverse ++ w⟩] := by
  intro w
  induction w with
  | nil =>
    intro acc _ hne
    cases hacc : acc with
    | nil => subst hacc; simp at hne
    | cons a t =>
      subst hacc
      simp [splitlinesGo]
  | cons c w' ih =>
    intro acc hbf _
    have hc : isLineBreak c = false := hbf c (by simp)
    have hr : (c == '\r') = false := by
      cases hcc : c == '\r'
      · rfl
      · have hceq : c = '\r' := by simpa using hcc
        rw [hceq] at hc
        simp [isLineBreak] at hc
    have hstep : splitlinesGo (c :: w') acc = splitlinesGo w' (c :: acc) := by
      rw [splitlinesGo.eq_def]
      simp [hr, hc]
    rw [hstep, ih (c :: acc) (fun c' h => hbf c' (by simp [h])) (by simp)]
    simp

theorem splitlinesGo_append_nl : ∀ (w z acc : List Char),
    (∀ c ∈ w, isLineBreak c = false) →
    splitlinesGo (w ++ '\n' :: z) acc =
      (⟨acc.reverse ++ w⟩ : String) :: splitlinesGo z [] := by
  intro w
  induction w with
  | nil =>
    intro z acc _
    rw [List.nil_append]
    have hstep : splitlinesGo ('\n' :: z) acc =
        (⟨acc.reverse⟩ : String) :: splitlinesGo z [] := by
      rw [splitlinesGo.eq_def]
      norm_num [isLineBreak]
      intro h
      exact absurd h (by decide)
    rw [hstep]
    simp
  | cons c w' ih =>
    intro z acc hbf
    have hc : isLineBreak c = false := hbf c (by simp)
    have hr : (c == '\r') = false := by
      cases hcc : c == '\r'
      · rfl
      · have hceq : c = '\r' := by simpa using hcc
        rw [hceq] at hc
        simp [isLineBreak] at hc
    rw [List.cons_append]
    have hstep : splitlinesGo (c :: (w' ++ '\n' :: z)) acc =
        splitlinesGo (w' ++ '\n' :: z) (c :: acc) := by
      rw [splitlinesGo.eq_def]
      simp [hr, hc]
    rw [hstep, ih z (c :: acc) (fun c' h => hbf c' (by simp [h]))]
    simp

theorem pyJoin_cons {sep : String} {a : String} {t : List String} (h : t ≠ []) :
    pyJoin sep (a :: t) = a ++ sep ++ pyJoin sep t := by
  cases t with
  | nil => exact absurd rfl h
  | cons b r => rfl

theorem splitlines_join : ∀ (ls : List String) (last : String),
    (∀ ℓ ∈ ls, ∀ c ∈ ℓ.data, isLineBreak c = false) →
    (∀ c ∈ last.data, isLineBreak c = false) → last.data ≠ [] →
    pySplitlines (pyJoin "\n" (ls ++ [last])) = ls ++ [last] := by
  intro ls
  induction ls with
  | nil =>
    intro last _ hbf hne
    show splitlinesGo (pyJoin "\n" [last]).data [] = [last]
    have : pyJoin "\n" [last] = last := rfl
    rw [this, splitlinesGo_no_breaks last.data [] (by simpa using hbf) (by simpa using hne)]
    congr

  | cons a ls' ih =>
    intro last hbf hbl hne
    have hj : pyJoin "\n" (a :: (ls' ++ [last])) =
        a ++ "\n" ++ pyJoin "\n" (ls' ++ [last]) :=
      pyJoin_cons (by simp)
    show splitlinesGo (pyJoin "\n" ((a :: ls') ++ [last])).data [] = (a :: ls') ++ [last]
    rw [List.cons_append, hj]
    have hdata : (a ++ "\n" ++ pyJoin "\n" (ls' ++ [last])).data =
        a.data ++ '\n' :: (pyJoin "\n" (ls' ++ [last])).data := by
      simp [String.data_append]
    rw [hdata, splitlinesGo_append_nl a.data _ []
      (fun c hc => hbf a (by simp) c hc)]
    have hih := ih last (fun ℓ h => hbf ℓ (by simp [h])) hbl hne
    show (⟨[] ++ a.data⟩ : String) :: splitlinesGo (pyJoin "\n" (ls' ++ [last])).data [] =
      a :: (ls' ++ [last])
    rw [show splitlinesGo (pyJoin "\n" (ls' ++ [last])).data [] =
        pySplitlines (pyJoin "\n" (ls' ++ [last])) from rfl, hih]
    congr

theorem parseGo_blocks_prop (P : String → Prop) :
    ∀ (lines cur : List String),
      (∀ ℓ ∈ lines, ¬(pyStrip ℓ).data.isEmpty → P ℓ) →
      (∀ ℓ ∈ cur, P ℓ ∧ ¬(pyStrip ℓ).data.isEmpty) →
      ∀ b ∈ parseGo lines cur, ∀ ℓ ∈ b, P ℓ ∧ ¬(pyStrip ℓ).data.isEmpty := by
  intro lines
  induction lines with
  | nil =>
    intro cur _ hcur b hb ℓ hl
    by_cases h : cur.isEmpty
    · simp [parseGo, h] at hb
    · simp [parseGo, h] at hb
      subst hb
      exact hcur ℓ hl
  | cons l rest ih =>
    intro cur hlines hcur b hb ℓ hl
    by_cases h : (pyStrip l).data.isEmpty
    · rw [parseGo, if_pos h] at hb
      by_cases h2 : cur.isEmpty
      · rw [if_pos h2] at hb
        exact ih [] (fun ℓ' h' hnb => hlines ℓ' (by simp [h']) hnb) (by simp) b hb ℓ hl
      · rw [if_neg h2] at hb
        rcases List.mem_cons.1 hb with rfl | hb2
        · exact hcur ℓ hl
        · exact ih [] (fun ℓ' h' hnb => hlines ℓ' (by simp [h']) hnb) (by simp) b hb2 ℓ hl
    · rw [parseGo, if_neg h] at hb
      refine ih (cur ++ [l]) (fun ℓ' h' hnb => hlines ℓ' (by simp [h']) hnb) ?_ b hb ℓ hl
      intro ℓ' hl'
      rcases List.mem_append.1 hl' with h1 | h1
      · exact hcur _ h1
      · have : ℓ' = l := by simpa using h1
        subst this
        exact ⟨hlines ℓ' (by simp) h, h⟩

theorem parseGo_seg : ∀ (blk : List String) (rest cur : List String),
    (∀ ℓ ∈ blk, ¬(pyStrip ℓ).data.isEmpty) → cur ++ blk ≠ [] →
    parseGo (blk ++ "" :: rest) cur = (cur ++ blk) :: parseGo rest [] := by
  intro blk
  induction blk with
  | nil =>
    intro rest cur _ hne
    have h2 : ¬ cur.isEmpty := by
      rw [List.isEmpty_iff]
      simpa using hne
    rw [List.nil_append, parseGo, if_pos (by decide), if_neg h2]
    simp
  | cons ℓ blk' ih =>
    intro rest cur hnb hne
    have hℓ : ¬(pyStrip ℓ).data.isEmpty := hnb ℓ (by simp)
    rw [List.cons_append, parseGo, if_neg hℓ,
      ih rest (cur ++ [ℓ]) (fun ℓ' h => hnb ℓ' (by simp [h])) (by simp)]
    simp

theorem parseGo_final : ∀ (blk cur : List String),
    (∀ ℓ ∈ blk, ¬(pyStrip ℓ).data.isEmpty) → cur ++ blk ≠ [] →
    parseGo blk cur = [cur ++ blk] := by
  intro blk
  induction blk with
  | nil =>
    intro cur _ hne
    have h2 : ¬ cur.isEmpty := by
      rw [List.isEmpty_iff]
      simpa using hne
    rw [parseGo, if_neg h2]
    simp
  | cons ℓ blk' ih =>
    intro cur hnb hne
    have hℓ : ¬(pyStrip ℓ).data.isEmpty := hnb ℓ (by simp)
    rw [parseGo, if_neg hℓ,
      ih (cur ++ [ℓ]) (fun ℓ' h => hnb ℓ' (by simp [h])) (by simp)]
    simp

/-! ### Text and character tracking through the merge scan -/

theorem pyJoin_chars {sep : String} : ∀ (ls : List String),
    ∀ c ∈ (pyJoin sep ls).data, (∃ ℓ ∈ ls, c ∈ ℓ.data) ∨ c ∈ sep.data := by
  intro ls
  induction ls with
  | nil => intro c hc; simp [pyJoin] at hc
  | cons a t ih =>
    cases t with
    | nil => intro c hc; exact Or.inl ⟨a, by simp, hc⟩
    | cons b r =>
      intro c hc
      rw [pyJoin_cons (by simp)] at hc
      simp only [String.data_append, List.mem_append] at hc
      rcases hc with (hc | hc) | hc
      · exact Or.inl ⟨a, by simp, hc⟩
      · exact Or.inr hc
      · rcases ih c hc with ⟨ℓ, hℓ, hcl⟩ | hsep
        · exact Or.inl ⟨ℓ, by simp [hℓ], hcl⟩
        · exact Or.inr hsep

theorem filter_nonws_join : ∀ (ls : List String),
    (pyJoin " " ls).data.filter (fun c => !pyIsSpace c) =
      (ls.map (fun ℓ => ℓ.data.filter (fun c => !pyIsSpace c))).flatten := by
  intro ls
  induction ls with
  | nil => rfl
  | cons a t ih =>
    cases t with
    | nil => simp [pyJoin]
    | cons b r =>
      rw [pyJoin_cons (by simp)]
      simp only [String.data_append, List.filter_append, List.map_cons, List.flatten_cons]
      rw [ih]
      have hsp : (" " : String).data.filter (fun c => !pyIsSpace c) = [] := by decide
      rw [hsp]
      simp

theorem cleanText_data_eq (b : List String) :
    (cleanText b).data =
      ((b.drop 2).map (fun ℓ => ℓ.data.filter (fun c => !pyIsSpace c))).flatten := by
  show ((rawText b).data.filter (fun c => !pyIsSpace c)) = _
  have : (rawText b).data = pyStripL (pyJoin " " (b.drop 2)).data := rfl
  rw [this, filter_nonws_pyStripL, filter_nonws_join]

theorem cleanText_merged (b nb : List String) (t0 t1 : String) :
    (cleanText [t0, t1, rawText b ++ rawText nb]).data.length =
      (cleanText b).data.length + (cleanText nb).data.length := by
  rw [cleanText_data_eq]
  show (((rawText b ++ rawText nb).data.filter (fun c => !pyIsSpace c)) ++ []).length = _
  rw [List.append_nil, String.data_append, List.filter_append, List.length_append]
  rfl

theorem strip_nonblank_iff (ℓ : String) :
    ¬(pyStrip ℓ).data.isEmpty ↔ ∃ c ∈ ℓ.data, pyIsSpace c = false := by
  show ¬ (pyStripL ℓ.data).isEmpty ↔ _
  rw [List.isEmpty_iff, pyStripL_eq_nil_iff]
  push_neg
  constructor
  · rintro ⟨c, hc, hw⟩
    exact ⟨c, hc, by simpa using hw⟩
  · rintro ⟨c, hc, hw⟩
    exact ⟨c, hc, by simp [hw]⟩

theorem cleanText_pos (nb : List String) (h3 : 3 ≤ nb.length)
    (hnb : ∀ ℓ ∈ nb, ¬(pyStrip ℓ).data.isEmpty) :
    1 ≤ (cleanText nb).data.length := by
  rw [cleanText_data_eq]
  have hdrop : nb.drop 2 ≠ [] := by
    intro h
    have := List.length_eq_zero.2 h
    rw [List.length_drop] at this
    omega
  obtain ⟨ℓ, hl⟩ := List.exists_mem_of_ne_nil _ hdrop
  have hmem : ℓ ∈ nb := (List.drop_sublist 2 nb).subset hl
  obtain ⟨c, hc, hw⟩ := (strip_nonblank_iff ℓ).1 (hnb ℓ hmem)
  have hcf : c ∈ ℓ.data.filter (fun c => !pyIsSpace c) := by
    rw [List.mem_filter]
    exact ⟨hc, by simp [hw]⟩
  have : c ∈ ((nb.drop 2).map (fun ℓ => ℓ.data.filter (fun c => !pyIsSpace c))).flatten := by
    rw [List.mem_flatten]
    exact ⟨_, List.mem_map_of_mem _ hl, hcf⟩
  have hne := List.ne_nil_of_mem this
  have := List.length_pos.2 hne
  omega

theorem filterBlockLines_id {b : List String} (h : ∀ ℓ ∈ b, '休' ∉ ℓ.data) :
    filterBlockLines b = b := by
  unfold filterBlockLines
  have hmap : (b.drop 2).map remove_little_rest_phrases = b.drop 2 := by
    have : ∀ ℓ ∈ b.drop 2, remove_little_rest_phrases ℓ = id ℓ := fun ℓ hℓ =>
      remove_v1_id (h ℓ ((List.drop_sublist 2 b).subset hℓ))
    rw [List.map_congr_left this, List.map_id]
  rw [hmap, List.take_append_drop]

theorem splitArrowL_ne_nil : ∀ cs : List Char, splitArrowL cs ≠ [] := by
  intro cs
  induction cs using splitArrowL.induct with
  | case1 rest ih => simp [splitArrowL]
  | case2 c rest ih hne =>
    rw [splitArrowL.eq_def]
    split
    · simp
    · cases h : splitArrowL _ <;> simp [consHead]
    · simp
  | case3 => simp [splitArrowL]

theorem splitArrowL_chars : ∀ (cs : List Char), ∀ piece ∈ splitArrowL cs,
    ∀ c ∈ piece, c ∈ cs := by
  intro cs
  induction cs using splitArrowL.induct with
  | case1 rest ih =>
    intro piece hp c hc
    rw [splitArrowL] at hp
    rcases List.mem_cons.1 hp with rfl | hp2
    · simp at hc
    · have := ih piece hp2 c hc
      simp [this]
  | case2 c' rest hnot ih =>
    intro piece hp c hc
    rw [splitArrowL.eq_def] at hp
    split at hp
    · next rest2 heq =>
        exfalso
        injection heq with h1 h2
        exact hnot rest2 h1 h2
    · next x1 c2 rest2 hno2 heq =>
        injection heq with h1 h2
        rw [← h1, ← h2] at hp
        cases hsp : splitArrowL rest with
        | nil =>
          rw [hsp] at hp
          simp only [consHead, List.mem_singleton] at hp
          subst hp
          rcases List.mem_cons.1 hc with rfl | hcp
          · simp
          · simp at hcp
        | cons p ps =>
          rw [hsp] at hp
          simp only [consHead] at hp
          rcases List.mem_cons.1 hp with rfl | hps
          · rcases List.mem_cons.1 hc with rfl | hcp
            · simp
            · have : c ∈ rest := ih p (by rw [hsp]; simp) c hcp
              simp [this]
          · have : c ∈ rest := ih piece (by rw [hsp]; simp [hps]) c hc
            simp [this]
    · next x heq => simp at heq
  | case3 =>
    intro piece hp c hc
    rw [splitArrowL] at hp
    simp at hp
    subst hp
    simp at hc

theorem mem_of_getElem1 {l : List String} {e : String} (h : l[1]? = some e) : e ∈ l := by
  have h1 : 1 < l.length := by
    by_contra hh
    rw [List.getElem?_eq_none_iff.2 (by omega)] at h
    cases h
  rw [List.getElem?_eq_getElem h1] at h
  cases h
  exact List.getElem_mem _

theorem getD_mem {l : List String} {n : Nat} (h : n < l.length) : l.getD n "" ∈ l := by
  rw [List.getD_eq_getElem l "" h]
  exact List.getElem_mem _

theorem pySplitArrow_piece_chars {t e : String} (he : e ∈ pySplitArrow t) :
    ∀ c ∈ e.data, c ∈ t.data := by
  intro c hc
  unfold pySplitArrow at he
  obtain ⟨pl, hpl, rfl⟩ := List.mem_map.1 he
  exact splitArrowL_chars _ pl hpl c hc

theorem pySplitArrow_headD_mem (t : String) :
    (pySplitArrow t).headD "" ∈ pySplitArrow t := by
  cases h : pySplitArrow t with
  | nil =>
    exfalso
    unfold pySplitArrow at h
    have := splitArrowL_ne_nil t.data
    simp [this] at h
  | cons x xs => simp

theorem rawText_chars {b : List String} : ∀ c ∈ (rawText b).data,
    (∃ ℓ ∈ b, c ∈ ℓ.data) ∨ c = ' ' := by
  intro c hc
  have h1 : c ∈ (pyJoin " " (b.drop 2)).data := pyStripL_subset _ hc
  rcases pyJoin_chars _ c h1 with ⟨ℓ, hℓ, hcl⟩ | hs
  · exact Or.inl ⟨ℓ, (List.drop_sublist 2 b).subset hℓ, hcl⟩
  · simp at hs
    exact Or.inr hs

theorem LineOK_newTime {tb tn e2 : String}
    (hb : LineOK tb) (hn : LineOK tn) (he : (pySplitArrow tn)[1]? = some e2) :
    LineOK (pyStrip ((pySplitArrow tb).headD "") ++ " --> " ++ pyStrip e2) := by
  have hhead : ∀ c ∈ (pyStrip ((pySplitArrow tb).headD "")).data, c ∈ tb.data := fun c hc =>
    pySplitArrow_piece_chars (pySplitArrow_headD_mem tb) c (pyStripL_subset _ hc)
  have he2 : ∀ c ∈ (pyStrip e2).data, c ∈ tn.data := fun c hc =>
    pySplitArrow_piece_chars (mem_of_getElem1 he) c (pyStripL_subset _ hc)
  have hmid : (" --> " : String).data = [' ', '-', '-', '>', ' '] := rfl
  have hmemdata : ∀ c ∈ (pyStrip ((pySplitArrow tb).headD "") ++ " --> " ++ pyStrip e2).data,
      c ∈ tb.data ∨ c ∈ ([' ', '-', '-', '>', ' '] : List Char) ∨ c ∈ tn.data := by
    intro c hc
    simp only [String.data_append, List.mem_append] at hc
    rcases hc with (hc | hc) | hc
    · exact Or.inl (hhead c hc)
    · exact Or.inr (Or.inl (by simpa using hc))
    · exact Or.inr (Or.inr (he2 c hc))
  refine ⟨?_, ?_, ?_⟩
  · intro hmem
    rcases hmemdata _ hmem with h | h | h
    · exact hb.1 h
    · simp at h
    · exact hn.1 h
  · intro c hc
    rcases hmemdata c hc with h | h | h
    · exact hb.2.1 c h
    · simp at h
      rcases h with rfl | rfl | rfl | rfl <;> rfl
    · exact hn.2.1 c h
  · rw [strip_nonblank_iff]
    refine ⟨'-', ?_, by decide⟩
    simp only [String.data_append, List.mem_append]
    refine Or.inl (Or.inr ?_)
    decide

theorem LineOK_combined {b nb : List String}
    (hb : ∀ ℓ ∈ b, LineOK ℓ) (hn : ∀ ℓ ∈ nb, LineOK ℓ)
    (hc1 : (cleanText b).length = 1) :
    LineOK (rawText b ++ rawText nb) := by
  have hmemdata : ∀ c ∈ (rawText b ++ rawText nb).data,
      (∃ ℓ ∈ b, c ∈ ℓ.data) ∨ (∃ ℓ ∈ nb, c ∈ ℓ.data) ∨ c = ' ' := by
    intro c hc
    rw [String.data_append] at hc
    rcases List.mem_append.1 hc with hc | hc
    · rcases rawText_chars c hc with h | h
      · exact Or.inl h
      · exact Or.inr (Or.inr h)
    · rcases rawText_chars c hc with h | h
      · exact Or.inr (Or.inl h)
      · exact Or.inr (Or.inr h)
  refine ⟨?_, ?_, ?_⟩
  · intro hmem
    rcases hmemdata _ hmem with ⟨ℓ, hℓ, hcl⟩ | ⟨ℓ, hℓ, hcl⟩ | h
    · exact (hb ℓ hℓ).1 hcl
    · exact (hn ℓ hℓ).1 hcl
    · simp at h
  · intro c hc
    rcases hmemdata c hc with ⟨ℓ, hℓ, hcl⟩ | ⟨ℓ, hℓ, hcl⟩ | rfl
    · exact (hb ℓ hℓ).2.1 c hcl
    · exact (hn ℓ hℓ).2.1 c hcl
    · rfl
  · rw [strip_nonblank_iff]
    have hone : ((rawText b).data.filter (fun c => !pyIsSpace c)).length = 1 := hc1
    have hne : (rawText b).data.filter (fun c => !pyIsSpace c) ≠ [] := by
      intro h
      rw [h] at hone
      simp at hone
    obtain ⟨c, hcf⟩ := List.exists_mem_of_ne_nil _ hne
    rw [List.mem_filter] at hcf
    refine ⟨c, ?_, by simpa using hcf.2⟩
    rw [String.data_append]
    exact List.mem_append.2 (Or.inl hcf.1)

theorem mem_dropLast_cons {α : Type} {a : α} {l : List α} {x : α}
    (h : x ∈ (a :: l).dropLast) : x = a ∨ x ∈ l.dropLast := by
  cases l with
  | nil => simp at h
  | cons b t =>
    rw [List.dropLast_cons₂] at h
    rcases List.mem_cons.1 h with rfl | h2
    · exact Or.inl rfl
    · exact Or.inr h2

theorem mergePass_struct : ∀ bs ms, mergePass bs = some ms → BlocksOK bs →
    BlocksOK ms ∧ (∀ b ∈ ms.dropLast, (cleanText b).length ≠ 1) := by
  intro bs
  induction bs using mergePass.induct with
  | case1 =>
    intro ms h _
    rw [mergePass_nil] at h
    cases h
    exact ⟨fun b hb => absurd hb (by simp), fun b hb => absurd hb (by simp)⟩
  | case2 b rest h ih =>
    intro ms hm hOK
    exact absurd (hOK b (by simp)).1 (by omega)
  | case3 b h =>
    intro ms hm hOK
    rw [mergePass_singleton (by omega)] at hm
    cases hm
    have hid : filterBlockLines b = b :=
      filterBlockLines_id (fun ℓ hℓ => ((hOK b (by simp)).2 ℓ hℓ).1)
    rw [hid]
    refine ⟨?_, ?_⟩
    · intro b' hb'
      have : b' = b := by simpa using hb'
      subst this
      exact hOK b' (by simp)
    · intro b' hb'
      simp at hb'
  | case4 b h0 nb rest2 hclean hn ih =>
    intro ms hm hOK
    exact absurd (hOK nb (by simp)).1 (by omega)
  | case5 b h0 nb rest2 hclean hn hx =>
    intro ms hm hOK
    have hc : (cleanText b).length = 1 := by simpa using hclean
    rw [mergePass_cons_mergeFail rest2 (by omega) hc (by omega) hx] at hm
    simp at hm
  | case6 b h0 nb rest2 hclean hn e2 hx ih =>
    intro ms hm hOK
    have hc : (cleanText b).length = 1 := by simpa using hclean
    rw [mergePass_cons_merge rest2 (by omega) hc (by omega) hx] at hm
    obtain ⟨ms', hms', rfl⟩ := Option.map_eq_some'.1 hm
    have hOKr : BlocksOK rest2 := fun b' hb' => hOK b' (by simp [hb'])
    obtain ⟨ihOK, ihclean⟩ := ih ms' hms' hOKr
    have hOKb := hOK b (by simp)
    have hOKnb := hOK nb (by simp)
    constructor
    · intro b' hb'
      rcases List.mem_cons.1 hb' with rfl | hb2
      · refine ⟨by simp, ?_⟩
        intro ℓ hℓ
        rcases List.mem_cons.1 hℓ with rfl | hℓ2
        · exact hOKb.2 _ (getD_mem (by omega))
        rcases List.mem_cons.1 hℓ2 with rfl | hℓ3
        · exact LineOK_newTime (hOKb.2 _ (getD_mem (by omega)))
            (hOKnb.2 _ (getD_mem (by omega))) hx
        rcases List.mem_cons.1 hℓ3 with rfl | hℓ4
        · exact LineOK_combined hOKb.2 hOKnb.2 hc
        · simp at hℓ4
      · exact ihOK b' hb2
    · intro b' hb'
      rcases mem_dropLast_cons hb' with rfl | h2
      · have hmlen : (cleanText [b.getD 0 "",
            pyStrip ((pySplitArrow (b.getD 1 "")).headD "") ++ " --> " ++ pyStrip e2,
            rawText b ++ rawText nb]).data.length =
            (cleanText b).data.length + (cleanText nb).data.length :=
          cleanText_merged b nb _ _
        have hb1 : (cleanText b).data.length = 1 := hc
        have hpos := cleanText_pos nb (by omega)
          (fun ℓ hℓ => ((hOKnb.2 ℓ hℓ)).2.2)
        show ¬ _ = 1
        intro heq
        have heq' : (cleanText [b.getD 0 "",
            pyStrip ((pySplitArrow (b.getD 1 "")).headD "") ++ " --> " ++ pyStrip e2,
            rawText b ++ rawText nb]).data.length = 1 := heq
        omega
      · exact ihclean b' h2
  | case7 b h0 nb rest2 hne ih =>
    intro ms hm hOK
    have hc : (cleanText b).length ≠ 1 := by simpa using hne
    rw [mergePass_cons_noMerge _ (by omega) hc] at hm
    obtain ⟨ms', hms', rfl⟩ := Option.map_eq_some'.1 hm
    have hid : filterBlockLines b = b :=
      filterBlockLines_id (fun ℓ hℓ => ((hOK b (by simp)).2 ℓ hℓ).1)
    rw [hid]
    have hOKrest : BlocksOK (nb :: rest2) := fun b' hb' => hOK b' (by simp [hb'])
    obtain ⟨ihOK, ihclean⟩ := ih ms' hms' hOKrest
    constructor
    · intro b' hb'
      rcases List.mem_cons.1 hb' with rfl | h2
      · exact hOK b' (by simp)
      · exact ihOK _ h2
    · intro b' hb'
      rcases mem_dropLast_cons hb' with rfl | h2
      · exact hc
      · exact ihclean b' h2

/-! ### The serialized string of an all-well-formed block list -/

theorem pyStripL_append_nl {l : List Char} : pyStripL (l ++ ['\n']) = pyStripL l := by
  unfold pyStripL
  rw [List.dropWhile_append]
  by_cases h : (l.dropWhile pyIsSpace).isEmpty
  · rw [if_pos h]
    have h1 : l.dropWhile pyIsSpace = [] := by rwa [List.isEmpty_iff] at h
    rw [h1]
    decide
  · rw [if_neg h]
    exact pyRStripL_append_ws (by decide)

theorem pyStripL_cons_nonws {c : Char} {t : List Char} (h : pyIsSpace c = false) :
    pyStripL (c :: t) = pyRStripL (c :: t) := by
  unfold pyStripL
  simp [List.dropWhile_cons, h]

theorem nonws_mem_pyRStripL {l : List Char} {c : Char} (hc : c ∈ l)
    (hw : pyIsSpace c = false) : c ∈ pyRStripL l := by
  obtain ⟨s, hdec, hws⟩ := pyRStripL_sfx l
  rw [hdec] at hc
  rcases List.mem_append.1 hc with h | h
  · exact h
  · have := hws c h
    rw [hw] at this
    cases this

theorem strip_rstrip_nl {J : String} (hJ : ∃ c t, J.data = c :: t ∧ pyIsSpace c = false) :
    pyStrip (pyRStrip J ++ "\n") = pyRStrip J := by
  obtain ⟨c, t, hdata, hw⟩ := hJ
  apply String.ext
  show pyStripL ((pyRStrip J).data ++ ("\n" : String).data) = pyRStripL J.data
  have h1 : (pyRStrip J).data = pyRStripL J.data := rfl
  have h2 : ("\n" : String).data = ['\n'] := rfl
  rw [h1, h2, pyStripL_append_nl, hdata]
  cases hRc : pyRStripL (c :: t) with
  | nil =>
    exfalso
    rw [pyRStripL_eq_nil_iff] at hRc
    have := hRc c (by simp)
    rw [hw] at this
    cases this
  | cons r0 rt =>
    obtain ⟨s, hdec, hws⟩ := pyRStripL_sfx (c :: t)
    rw [hRc, List.cons_append] at hdec
    have hc0 : c = r0 := by
      injection hdec
    subst hc0
    rw [pyStripL_cons_nonws hw]
    conv_lhs => rw [← hRc]
    rw [pyRStripL_idem, hRc]

theorem pyJoin_append {sep : String} : ∀ (u v : List String), u ≠ [] → v ≠ [] →
    pyJoin sep (u ++ v) = pyJoin sep u ++ sep ++ pyJoin sep v := by
  intro u
  induction u with
  | nil => intro v h _; exact absurd rfl h
  | cons a u' ih =>
    intro v _ hv
    cases u' with
    | nil =>
      rw [List.singleton_append, pyJoin_cons hv]
      rfl
    | cons b u'' =>
      rw [List.cons_append, pyJoin_cons (by simp), pyJoin_cons (by simp),
        ih v (by simp) hv]
      simp [String.append_assoc]

theorem pyJoin_mem_head_chars {sep a : String} {t : List String} {c : Char}
    (hc : c ∈ a.data) : c ∈ (pyJoin sep (a :: t)).data := by
  cases t with
  | nil => exact hc
  | cons b r =>
    rw [pyJoin_cons (by simp)]
    simp only [String.data_append, List.mem_append]
    exact Or.inl (Or.inl hc)

theorem toString_nat_head_nonws (n : Nat) :
    ∃ c t, (toString n).data = c :: t ∧ pyIsSpace c = false := by
  cases h : (toString n).data with
  | nil => exact absurd h (toString_nat_ne_nil n)
  | cons c t =>
    refine ⟨c, t, rfl, ?_⟩
    exact (toString_nat_chars n c (by rw [h]; simp)).1

theorem rstripLastLine_eq : ∀ (ls : List String) (h : ls ≠ []),
    rstripLastLine ls = ls.dropLast ++ [pyRStrip (ls.getLast h)] := by
  intro ls
  induction ls with
  | nil => intro h; exact absurd rfl h
  | cons a t ih =>
    intro _
    cases t with
    | nil => rfl
    | cons b t' =>
      have hstep : rstripLastLine (a :: b :: t') = a :: rstripLastLine (b :: t') := rfl
      rw [hstep, ih (by simp)]
      simp [List.dropLast_cons₂, List.getLast_cons]

theorem rstripLastLine_length : ∀ ls : List String,
    (rstripLastLine ls).length = ls.length := by
  intro ls
  induction ls with
  | nil => rfl
  | cons a t ih =>
    cases t with
    | nil => rfl
    | cons b t' =>
      have hstep : rstripLastLine (a :: b :: t') = a :: rstripLastLine (b :: t') := rfl
      rw [hstep]
      simpa using ih

theorem rstripLastLine_cons {a : String} {t : List String} (h : t ≠ []) :
    rstripLastLine (a :: t) = a :: rstripLastLine t := by
  cases t with
  | nil => exact absurd rfl h
  | cons b t' => rfl

theorem block_decomp {b : List String} (h : 3 ≤ b.length) :
    ∃ a1 a2 a3 t, b = a1 :: a2 :: a3 :: t := by
  cases b with
  | nil => simp at h
  | cons a1 t1 =>
    cases t1 with
    | nil => exact absurd h (by simp)
    | cons a2 t2 =>
      cases t2 with
      | nil => exact absurd h (by simp)
      | cons a3 t3 => exact ⟨a1, a2, a3, t3, rfl⟩

theorem serLines_cons_wf {b : List String} (h : 3 ≤ b.length) (n : Nat)
    (rest : List (List String)) :
    serLines n (b :: rest) =
      (toString n :: b.drop 1) ++ [""] ++ serLines (n + 1) rest := by
  obtain ⟨a1, a2, a3, t, rfl⟩ := block_decomp h
  have h' : ¬ (a1 :: a2 :: a3 :: t).length < 3 := by simp
  simp [serLines, h', List.getD]

theorem serLines_ne_nil {b : List String} (h : 3 ≤ b.length) (n : Nat)
    (rest : List (List String)) : serLines n (b :: rest) ≠ [] := by
  rw [serLines_cons_wf h]
  simp

theorem lines_b_LineOK {b : List String} (n : Nat)
    (hOK : ∀ ℓ ∈ b, LineOK ℓ) : ∀ ℓ ∈ (toString n :: b.drop 1), LineOK ℓ := by
  intro ℓ hℓ
  rcases List.mem_cons.1 hℓ with rfl | h2
  · exact toString_nat_LineOK n
  · exact hOK ℓ ((List.drop_sublist 1 b).subset h2)

theorem join_serLines_nonws {b : List String} {rest : List (List String)} {n : Nat}
    (h3 : 3 ≤ b.length) :
    ∃ c ∈ (pyJoin "\n" (serLines n (b :: rest))).data, pyIsSpace c = false := by
  obtain ⟨c0, t0, hdat, hw⟩ := toString_nat_head_nonws n
  refine ⟨c0, ?_, hw⟩
  rw [serLines_cons_wf h3]
  have hshape : (toString n :: b.drop 1) ++ [""] ++ serLines (n + 1) rest =
      toString n :: (b.drop 1 ++ [""] ++ serLines (n + 1) rest) := by simp
  rw [hshape]
  exact pyJoin_mem_head_chars (by rw [hdat]; simp)

theorem serFinal_ne_nil : ∀ (ms : List (List String)) (n : Nat), ms ≠ [] →
    serFinal n ms ≠ [] := by
  intro ms n h
  cases ms with
  | nil => exact absurd rfl h
  | cons b rest =>
    cases rest with
    | nil =>
      show rstripLastLine (toString n :: b.drop 1) ≠ []
      intro hh
      have := rstripLastLine_length (toString n :: b.drop 1)
      rw [hh] at this
      simp at this
    | cons c t =>
      show (toString n :: b.drop 1) ++ [""] ++ serFinal (n + 1) (c :: t) ≠ []
      simp

theorem rstrip_join_serLines : ∀ (ms : List (List String)) (n : Nat),
    BlocksOK ms → ms ≠ [] →
    pyRStrip (pyJoin "\n" (serLines n ms)) = pyJoin "\n" (serFinal n ms) := by
  intro ms
  induction ms with
  | nil => intro n _ h; exact absurd rfl h
  | cons b rest ih =>
    intro n hOK _
    have hOKb := hOK b (by simp)
    have h3 : 3 ≤ b.length := hOKb.1
    have hlbne : (toString n :: b.drop 1) ≠ [] := by simp
    have hdlne : (toString n :: b.drop 1).dropLast ≠ [] := by
      intro hh
      have h1 := congrArg List.length hh
      rw [List.length_dropLast] at h1
      simp at h1
      omega
    cases rest with
    | nil =>
      rw [serLines_cons_wf h3]
      have hL : (toString n :: b.drop 1) ++ [""] ++ serLines (n + 1) [] =
          (toString n :: b.drop 1) ++ [""] := by
        simp [serLines]
      rw [hL, pyJoin_append _ _ hlbne (by simp)]
      apply String.ext
      have hd1 : (pyJoin "\n" (toString n :: b.drop 1) ++ "\n" ++ pyJoin "\n" [""]).data =
          (pyJoin "\n" (toString n :: b.drop 1)).data ++ ['\n'] := by
        simp [String.data_append]
        rfl
      show pyRStripL _ = _
      rw [hd1, pyRStripL_append_ws (by decide)]
      have hgl := List.dropLast_append_getLast hlbne
      have hglOK : LineOK ((toString n :: b.drop 1).getLast hlbne) :=
        lines_b_LineOK n hOKb.2 _ (List.getLast_mem hlbne)
      have hex : ∃ c ∈ ((toString n :: b.drop 1).getLast hlbne).data, pyIsSpace c = false :=
        (strip_nonblank_iff _).1 hglOK.2.2
      conv_lhs => rw [← hgl]
      rw [pyJoin_append _ _ hdlne (by simp)]
      have hsingle : pyJoin "\n" [(toString n :: b.drop 1).getLast hlbne] =
          (toString n :: b.drop 1).getLast hlbne := rfl
      rw [hsingle]
      have hd2 : (pyJoin "\n" (toString n :: b.drop 1).dropLast ++ "\n" ++
            (toString n :: b.drop 1).getLast hlbne).data =
          ((pyJoin "\n" (toString n :: b.drop 1).dropLast).data ++ ['\n']) ++
            ((toString n :: b.drop 1).getLast hlbne).data := by
        simp [String.data_append]
      rw [hd2, pyRStripL_append_keep hex]
      have hsf : serFinal n [b] = rstripLastLine (toString n :: b.drop 1) := rfl
      rw [hsf, rstripLastLine_eq _ hlbne, pyJoin_append _ _ hdlne (by simp)]
      simp [String.data_append]
      rfl
    | cons c t =>
      rw [serLines_cons_wf h3]
      have hOKr : BlocksOK (c :: t) := fun b' hb' => hOK b' (by simp [hb'])
      have h3c : 3 ≤ c.length := (hOKr c (by simp)).1
      have hL'ne : serLines (n + 1) (c :: t) ≠ [] := serLines_ne_nil h3c _ _
      have hassoc : (toString n :: b.drop 1) ++ [""] ++ serLines (n + 1) (c :: t) =
          (toString n :: b.drop 1) ++ ("" :: serLines (n + 1) (c :: t)) := by simp
      rw [hassoc, pyJoin_append _ _ hlbne (by simp), pyJoin_cons hL'ne]
      apply String.ext
      have hexL' : ∃ cc ∈ (pyJoin "\n" (serLines (n + 1) (c :: t))).data,
          pyIsSpace cc = false := join_serLines_nonws h3c
      have hd3 : (pyJoin "\n" (toString n :: b.drop 1) ++ "\n" ++
            (("" : String) ++ "\n" ++ pyJoin "\n" (serLines (n + 1) (c :: t)))).data =
          ((pyJoin "\n" (toString n :: b.drop 1)).data ++ ['\n', '\n']) ++
            (pyJoin "\n" (serLines (n + 1) (c :: t))).data := by
        simp [String.data_append]
      show pyRStripL _ = _
      rw [hd3, pyRStripL_append_keep hexL']
      have hih : pyRStripL (pyJoin "\n" (serLines (n + 1) (c :: t))).data =
          (pyJoin "\n" (serFinal (n + 1) (c :: t))).data :=
        congrArg String.data (ih (n + 1) hOKr (by simp))
      rw [hih]
      have hsfne : serFinal (n + 1) (c :: t) ≠ [] := serFinal_ne_nil _ _ (by simp)
      have hsf : serFinal n (b :: c :: t) =
          (toString n :: b.drop 1) ++ [""] ++ serFinal (n + 1) (c :: t) := rfl
      rw [hsf]
      have hassoc2 : (toString n :: b.drop 1) ++ [""] ++ serFinal (n + 1) (c :: t) =
          (toString n :: b.drop 1) ++ ("" :: serFinal (n + 1) (c :: t)) := by simp
      rw [hassoc2, pyJoin_append _ _ hlbne (by simp), pyJoin_cons hsfne]
      simp [String.data_append]

theorem serFinal_breakfree : ∀ (ms : List (List String)) (n : Nat), BlocksOK ms →
    ∀ ℓ ∈ serFinal n ms, ∀ c ∈ ℓ.data, isLineBreak c = false := by
  intro ms
  induction ms with
  | nil => intro n _ ℓ hℓ; simp [serFinal] at hℓ
  | cons b rest ih =>
    intro n hOK ℓ hℓ c hc
    have hOKb := hOK b (by simp)
    cases rest with
    | nil =>
      rw [show serFinal n [b] = rstripLastLine (toString n :: b.drop 1) from rfl,
        rstripLastLine_eq (toString n :: b.drop 1) (by simp)] at hℓ
      rcases List.mem_append.1 hℓ with h1 | h1
      · exact (lines_b_LineOK n hOKb.2 ℓ
          ((List.dropLast_sublist _).subset h1)).2.1 c hc
      · have hz : ℓ = pyRStrip ((toString n :: b.drop 1).getLast (by simp)) := by
          simpa using h1
        subst hz
        have hsub : c ∈ ((toString n :: b.drop 1).getLast (by simp)).data :=
          pyRStripL_subset _ hc
        exact (lines_b_LineOK n hOKb.2 _ (List.getLast_mem _)).2.1 c hsub
    | cons cb t =>
      rw [show serFinal n (b :: cb :: t) =
          (toString n :: b.drop 1) ++ [""] ++ serFinal (n + 1) (cb :: t) from rfl] at hℓ
      rcases List.mem_append.1 hℓ with h1 | h1
      · rcases List.mem_append.1 h1 with h2 | h2
        · exact (lines_b_LineOK n hOKb.2 ℓ h2).2.1 c hc
        · have : ℓ = "" := by simpa using h2
          subst this
          simp at hc
      · exact ih (n + 1) (fun b' hb' => hOK b' (by simp [hb'])) ℓ h1 c hc

theorem serFinal_last : ∀ (ms : List (List String)) (n : Nat), BlocksOK ms → ms ≠ [] →
    ∃ u ℓz, serFinal n ms = u ++ [ℓz] ∧ ℓz.data ≠ [] := by
  intro ms
  induction ms with
  | nil => intro n _ h; exact absurd rfl h
  | cons b rest ih =>
    intro n hOK _
    have hOKb := hOK b (by simp)
    cases rest with
    | nil =>
      refine ⟨(toString n :: b.drop 1).dropLast,
        pyRStrip ((toString n :: b.drop 1).getLast (by simp)), ?_, ?_⟩
      · exact rstripLastLine_eq (toString n :: b.drop 1) (by simp)
      · have hglOK : LineOK ((toString n :: b.drop 1).getLast (by simp)) :=
          lines_b_LineOK n hOKb.2 _ (List.getLast_mem _)
        obtain ⟨c, hc, hw⟩ := (strip_nonblank_iff _).1 hglOK.2.2
        intro hz
        have := nonws_mem_pyRStripL hc hw
        rw [show pyRStripL ((toString n :: b.drop 1).getLast (by simp)).data =
            (pyRStrip ((toString n :: b.drop 1).getLast (by simp))).data from rfl, hz] at this
        simp at this
    | cons cb t =>
      obtain ⟨u, ℓz, hdec, hnz⟩ := ih (n + 1) (fun b' hb' => hOK b' (by simp [hb'])) (by simp)
      refine ⟨(toString n :: b.drop 1) ++ [""] ++ u, ℓz, ?_, hnz⟩
      rw [show serFinal n (b :: cb :: t) =
          (toString n :: b.drop 1) ++ [""] ++ serFinal (n + 1) (cb :: t) from rfl, hdec]
      simp

theorem splitlines_serFinal (ms : List (List String)) (n : Nat)
    (hOK : BlocksOK ms) (hne : ms ≠ []) :
    pySplitlines (pyJoin "\n" (serFinal n ms)) = serFinal n ms := by
  obtain ⟨u, ℓz, hdec, hnz⟩ := serFinal_last ms n hOK hne
  rw [hdec]
  refine splitlines_join u ℓz ?_ ?_ hnz
  · intro ℓ hℓ c hc
    exact serFinal_breakfree ms n hOK ℓ (by rw [hdec]; simp [hℓ]) c hc
  · intro c hc
    exact serFinal_breakfree ms n hOK ℓz (by rw [hdec]; simp) c hc

theorem serFinal_nonblank : ∀ (ms : List (List String)) (n : Nat), BlocksOK ms →
    ∀ ℓ ∈ serFinal n ms, ℓ ≠ "" → ¬(pyStrip ℓ).data.isEmpty := by
  intro ms
  induction ms with
  | nil => intro n _ ℓ hℓ; simp [serFinal] at hℓ
  | cons b rest ih =>
    intro n hOK ℓ hℓ _
    have hOKb := hOK b (by simp)
    cases rest with
    | nil =>
      rw [show serFinal n [b] = rstripLastLine (toString n :: b.drop 1) from rfl,
        rstripLastLine_eq (toString n :: b.drop 1) (by simp)] at hℓ
      rcases List.mem_append.1 hℓ with h1 | h1
      · exact (lines_b_LineOK n hOKb.2 ℓ
          ((List.dropLast_sublist _).subset h1)).2.2
      · have hz : ℓ = pyRStrip ((toString n :: b.drop 1).getLast (by simp)) := by
          simpa using h1
        subst hz
        have hglOK : LineOK ((toString n :: b.drop 1).getLast (by simp)) :=
          lines_b_LineOK n hOKb.2 _ (List.getLast_mem _)
        obtain ⟨c, hc, hw⟩ := (strip_nonblank_iff _).1 hglOK.2.2
        rw [strip_nonblank_iff]
        exact ⟨c, nonws_mem_pyRStripL hc hw, hw⟩
    | cons cb t =>
      rw [show serFinal n (b :: cb :: t) =
          (toString n :: b.drop 1) ++ [""] ++ serFinal (n + 1) (cb :: t) from rfl] at hℓ
      rcases List.mem_append.1 hℓ with h1 | h1
      · rcases List.mem_append.1 h1 with h2 | h2
        · exact (lines_b_LineOK n hOKb.2 ℓ h2).2.2
        · have : ℓ = "" := by simpa using h2
          subst this
          simp_all
      · exact ih (n + 1) (fun b' hb' => hOK b' (by simp [hb'])) ℓ h1 (by assumption)

theorem rstripLastLine_lines_nonblank {n : Nat} {b : List String}
    (hOK : ∀ ℓ ∈ b, LineOK ℓ) :
    ∀ ℓ ∈ rstripLastLine (toString n :: b.drop 1), ¬(pyStrip ℓ).data.isEmpty := by
  intro ℓ hℓ
  rw [rstripLastLine_eq (toString n :: b.drop 1) (by simp)] at hℓ
  rcases List.mem_append.1 hℓ with h1 | h1
  · exact (lines_b_LineOK n hOK ℓ ((List.dropLast_sublist _).subset h1)).2.2
  · have hz : ℓ = pyRStrip ((toString n :: b.drop 1).getLast (by simp)) := by
      simpa using h1
    subst hz
    have hglOK : LineOK ((toString n :: b.drop 1).getLast (by simp)) :=
      lines_b_LineOK n hOK _ (List.getLast_mem _)
    obtain ⟨c, hc, hw⟩ := (strip_nonblank_iff _).1 hglOK.2.2
    rw [strip_nonblank_iff]
    exact ⟨c, nonws_mem_pyRStripL hc hw, hw⟩

theorem parse_serFinal : ∀ (ms : List (List String)) (n : Nat), BlocksOK ms → ms ≠ [] →
    parseGo (serFinal n ms) [] = rstripLastBlock (renumBlocks n ms) := by
  intro ms
  induction ms with
  | nil => intro n _ h; exact absurd rfl h
  | cons b rest ih =>
    intro n hOK _
    have hOKb := hOK b (by simp)
    cases rest with
    | nil =>
      rw [show serFinal n [b] = rstripLastLine (toString n :: b.drop 1) from rfl]
      have hne2 : ([] : List String) ++ rstripLastLine (toString n :: b.drop 1) ≠ [] := by
        rw [List.nil_append]
        intro hh
        have hlen := rstripLastLine_length (toString n :: b.drop 1)
        rw [hh] at hlen
        simp at hlen
      rw [parseGo_final _ [] (rstripLastLine_lines_nonblank hOKb.2) hne2]
      rw [List.nil_append]
      rfl
    | cons cb t =>
      have hser : serFinal n (b :: cb :: t) =
          (toString n :: b.drop 1) ++ "" :: serFinal (n + 1) (cb :: t) := by
        rw [show serFinal n (b :: cb :: t) =
            (toString n :: b.drop 1) ++ [""] ++ serFinal (n + 1) (cb :: t) from rfl]
        simp
      rw [hser, parseGo_seg _ _ []
        (fun ℓ hℓ => (lines_b_LineOK n hOKb.2 ℓ hℓ).2.2) (by simp)]
      rw [List.nil_append, ih (n + 1) (fun b' hb' => hOK b' (by simp [hb'])) (by simp)]
      rfl

theorem parse_serializeDoc (ms : List (List String)) (hOK : BlocksOK ms)
    (hne : ms ≠ []) :
    parseDocument (serializeDoc ms) = rstripLastBlock (renumBlocks 1 ms) := by
  have hJhead : ∃ c t, (pyJoin "\n" (serLines 1 ms)).data = c :: t ∧
      pyIsSpace c = false := by
    cases ms with
    | nil => exact absurd rfl hne
    | cons b rest =>
      have h3 : 3 ≤ b.length := (hOK b (by simp)).1
      obtain ⟨c0, t0, hdat, hw⟩ := toString_nat_head_nonws 1
      rw [serLines_cons_wf h3]
      have hshape : (toString 1 :: b.drop 1) ++ [""] ++ serLines (1 + 1) rest =
          toString 1 :: (b.drop 1 ++ [""] ++ serLines (1 + 1) rest) := by simp
      rw [hshape, pyJoin_cons (by simp)]
      refine ⟨c0, t0 ++ ("\n" ++ pyJoin "\n" (b.drop 1 ++ [""] ++ serLines (1 + 1) rest)).data,
        ?_, hw⟩
      simp [String.data_append, hdat]
  show parseGo (pySplitlines (pyStrip
    (pyRStrip (pyJoin "\n" (serLines 1 ms)) ++ "\n"))) [] = _
  rw [strip_rstrip_nl hJhead, rstrip_join_serLines ms 1 hOK hne,
    splitlines_serFinal ms 1 hOK hne, parse_serFinal ms 1 hOK hne]

/-! ### The second pass is a no-op -/

theorem mergePass_no_op : ∀ (ms : List (List String)),
    (∀ b ∈ ms, 3 ≤ b.length ∧ filterBlockLines b = b) →
    (∀ b ∈ ms.dropLast, (cleanText b).length ≠ 1) →
    mergePass ms = some ms := by
  intro ms
  induction ms with
  | nil => intro _ _; rfl
  | cons b rest ih =>
    intro h hd
    have hb := h b (by simp)
    cases rest with
    | nil =>
      rw [mergePass_singleton hb.1, hb.2]
    | cons nb rest2 =>
      have hcb : (cleanText b).length ≠ 1 := by
        refine hd b ?_
        rw [List.dropLast_cons₂]
        simp
      rw [mergePass_cons_noMerge _ hb.1 hcb,
        ih (fun b' hb' => h b' (by simp [hb']))
          (fun b' hb' => hd b' (by rw [List.dropLast_cons₂]; simp [hb'])), hb.2]
      rfl

theorem LineOK_pyRStrip {ℓ : String} (h : LineOK ℓ) : LineOK (pyRStrip ℓ) := by
  refine ⟨?_, ?_, ?_⟩
  · intro hc
    exact h.1 (pyRStripL_subset _ hc)
  · intro c hc
    exact h.2.1 c (pyRStripL_subset _ hc)
  · obtain ⟨c, hc, hw⟩ := (strip_nonblank_iff _).1 h.2.2
    rw [strip_nonblank_iff]
    exact ⟨c, nonws_mem_pyRStripL hc hw, hw⟩

theorem rstripLastLine_mem : ∀ (ls : List String) (ℓ : String), ℓ ∈ rstripLastLine ls →
    ℓ ∈ ls ∨ ∃ ℓ0 ∈ ls, ℓ = pyRStrip ℓ0 := by
  intro ls ℓ hℓ
  cases hls : ls with
  | nil => subst hls; simp [rstripLastLine] at hℓ
  | cons a t =>
    subst hls
    rw [rstripLastLine_eq (a :: t) (by simp)] at hℓ
    rcases List.mem_append.1 hℓ with h1 | h1
    · exact Or.inl ((List.dropLast_sublist _).subset h1)
    · have : ℓ = pyRStrip ((a :: t).getLast (by simp)) := by simpa using h1
      exact Or.inr ⟨_, List.getLast_mem _, this⟩

theorem renumBlocks_length : ∀ (ms : List (List String)) (i : Nat),
    (renumBlocks i ms).length = ms.length := by
  intro ms
  induction ms with
  | nil => intro i; rfl
  | cons b rest ih => intro i; simp [renumBlocks, ih]

theorem rstripLastBlock_length : ∀ (ls : List (List String)),
    (rstripLastBlock ls).length = ls.length := by
  intro ls
  induction ls with
  | nil => rfl
  | cons b rest ih =>
    cases rest with
    | nil => rfl
    | cons c t =>
      have : rstripLastBlock (b :: c :: t) = b :: rstripLastBlock (c :: t) := rfl
      rw [this]
      simpa using ih

theorem rstripLastBlock_cons {b : List String} {rest : List (List String)}
    (h : rest ≠ []) : rstripLastBlock (b :: rest) = b :: rstripLastBlock rest := by
  cases rest with
  | nil => exact absurd rfl h
  | cons c t => rfl

theorem serFinal_cons {n : Nat} {b : List String} {rest : List (List String)}
    (h : rest ≠ []) :
    serFinal n (b :: rest) = (toString n :: b.drop 1) ++ [""] ++ serFinal (n + 1) rest := by
  cases rest with
  | nil => exact absurd rfl h
  | cons c t => rfl

theorem renumBlocks_cons (i : Nat) (b : List String) (rest : List (List String)) :
    renumBlocks i (b :: rest) = (toString i :: b.drop 1) :: renumBlocks (i + 1) rest := rfl

theorem rstripLastBlock_dropLast : ∀ (ls : List (List String)),
    (rstripLastBlock ls).dropLast = ls.dropLast := by
  intro ls
  induction ls with
  | nil => rfl
  | cons b rest ih =>
    cases rest with
    | nil => rfl
    | cons c t =>
      rw [rstripLastBlock_cons (by simp)]
      have h1 : rstripLastBlock (c :: t) ≠ [] := by
        intro hh
        have := rstripLastBlock_length (c :: t)
        rw [hh] at this
        simp at this
      rw [List.dropLast_cons_of_ne_nil h1, List.dropLast_cons_of_ne_nil (by simp), ih]

theorem rstripLastBlock_mem : ∀ (ls : List (List String)) (b' : List String),
    b' ∈ rstripLastBlock ls → b' ∈ ls ∨ ∃ b ∈ ls, b' = rstripLastLine b := by
  intro ls
  induction ls with
  | nil => intro b' h; simp [rstripLastBlock] at h
  | cons b rest ih =>
    intro b' hb'
    cases rest with
    | nil =>
      have : b' = rstripLastLine b := by simpa [rstripLastBlock] using hb'
      exact Or.inr ⟨b, by simp, this⟩
    | cons c t =>
      rw [rstripLastBlock_cons (by simp)] at hb'
      rcases List.mem_cons.1 hb' with rfl | h2
      · exact Or.inl (by simp)
      · rcases ih b' h2 with h3 | ⟨b0, hb0, h4⟩
        · exact Or.inl (by simp [h3])
        · exact Or.inr ⟨b0, by simp [hb0], h4⟩

theorem renumBlocks_mem : ∀ (ms : List (List String)) (i : Nat) (b' : List String),
    b' ∈ renumBlocks i ms →
    ∃ (j : Nat) (b : List String), b ∈ ms ∧ b' = toString j :: b.drop 1 := by
  intro ms
  induction ms with
  | nil => intro i b' h; simp [renumBlocks] at h
  | cons b rest ih =>
    intro i b' hb'
    rw [renumBlocks_cons] at hb'
    rcases List.mem_cons.1 hb' with rfl | h2
    · exact ⟨i, b, by simp, rfl⟩
    · obtain ⟨j, b0, hb0, h3⟩ := ih (i + 1) b' h2
      exact ⟨j, b0, by simp [hb0], h3⟩

theorem renumBlocks_dropLast_mem : ∀ (ms : List (List String)) (i : Nat)
    (b' : List String), b' ∈ (renumBlocks i ms).dropLast →
    ∃ (j : Nat) (b : List String), b ∈ ms.dropLast ∧ b' = toString j :: b.drop 1 := by
  intro ms
  induction ms with
  | nil => intro i b' h; simp [renumBlocks] at h
  | cons b rest ih =>
    intro i b' hb'
    cases rest with
    | nil => simp [renumBlocks] at hb'
    | cons c t =>
      rw [renumBlocks_cons] at hb'
      have hne : renumBlocks (i + 1) (c :: t) ≠ [] := by
        intro hh
        have := renumBlocks_length (c :: t) (i + 1)
        rw [hh] at this
        simp at this
      rw [List.dropLast_cons_of_ne_nil hne] at hb'
      rcases List.mem_cons.1 hb' with rfl | h2
      · exact ⟨i, b, by rw [List.dropLast_cons_of_ne_nil (by simp)]; simp, rfl⟩
      · obtain ⟨j, b0, hb0, h3⟩ := ih (i + 1) b' h2
        exact ⟨j, b0, by rw [List.dropLast_cons_of_ne_nil (by simp)]; simp [hb0], h3⟩

theorem cleanText_renum (j : Nat) (b : List String) :
    cleanText (toString j :: b.drop 1) = cleanText b := by
  unfold cleanText rawText
  have : (toString j :: b.drop 1).drop 2 = b.drop 2 := by
    show (b.drop 1).drop 1 = b.drop 2
    rw [List.drop_drop]
  rw [this]

theorem splitlinesGo_chars (P : Char → Prop) : ∀ (cs acc : List Char),
    (∀ c ∈ cs, P c) → (∀ c ∈ acc, P c ∧ isLineBreak c = false) →
    ∀ ℓ ∈ splitlinesGo cs acc, ∀ c ∈ ℓ.data, P c ∧ isLineBreak c = false := by
  intro cs acc
  induction cs, acc using splitlinesGo.induct with
  | case1 =>
    intro _ _ ℓ hℓ
    rw [show splitlinesGo [] [] = [] from rfl] at hℓ
    simp at hℓ
  | case2 acc hne =>
    intro _ hacc ℓ hℓ c hc
    rw [splitlinesGo.eq_def] at hℓ
    split at hℓ
    · simp at hℓ
    · have hℓ2 := hℓ
      simp only [List.mem_singleton] at hℓ2
      subst hℓ2
      exact hacc c (by simpa using hc)
    · rename_i heq
      simp at heq
  | case3 c0 acc h rest2 ih =>
    intro hcs hacc ℓ hℓ c hc
    rw [splitlinesGo.eq_def] at hℓ
    simp only [h, if_pos] at hℓ
    rcases List.mem_cons.1 hℓ with rfl | h2
    · exact hacc c (by simpa using hc)
    · exact ih (fun c' hc' => hcs c' (by simp [hc'])) (by simp) ℓ h2 c hc
  | case4 c0 acc h =>
    intro hcs hacc ℓ hℓ c hc
    rw [splitlinesGo.eq_def] at hℓ
    simp only [h, if_pos] at hℓ
    have : ℓ = (⟨acc.reverse⟩ : String) := by simpa using hℓ
    subst this
    exact hacc c (by simpa using hc)
  | case5 c0 acc h c2 rest2 hne ih =>
    intro hcs hacc ℓ hℓ c hc
    rw [splitlinesGo.eq_def] at hℓ
    simp only [h, if_pos] at hℓ
    rcases List.mem_cons.1 hℓ with rfl | h3
    · exact hacc c (by simpa using hc)
    · exact ih (fun c' hc' => hcs c' (by simp [hc'])) (by simp) ℓ h3 c hc
  | case6 c0 rest acc hr hbr ih =>
    intro hcs hacc ℓ hℓ c hc
    rw [splitlinesGo.eq_def] at hℓ
    simp only [hr, hbr, if_pos, if_neg, Bool.false_eq_true] at hℓ
    rcases List.mem_cons.1 hℓ with rfl | h2
    · exact hacc c (by simpa using hc)
    · exact ih (fun c' hc' => hcs c' (by simp [hc'])) (by simp) ℓ h2 c hc
  | case7 c0 rest acc hr hbr ih =>
    intro hcs hacc ℓ hℓ c hc
    rw [splitlinesGo.eq_def] at hℓ
    simp only [hr, hbr, if_neg, Bool.false_eq_true] at hℓ
    refine ih (fun c' hc' => hcs c' (by simp [hc'])) ?_ ℓ hℓ c hc
    intro c' hc'
    rcases List.mem_cons.1 hc' with rfl | h2
    · exact ⟨hcs c' (by simp), by simpa using hbr⟩
    · exact hacc c' h2

theorem pyRStrip_idem (s : String) : pyRStrip (pyRStrip s) = pyRStrip s :=
  String.ext pyRStripL_idem

theorem rstripLastLine_idem : ∀ ls : List String,
    rstripLastLine (rstripLastLine ls) = rstripLastLine ls := by
  intro ls
  cases hls : ls with
  | nil => rfl
  | cons a t =>
    have hne : (a :: t) ≠ [] := by simp
    rw [rstripLastLine_eq _ hne]
    have hne2 : (a :: t).dropLast ++ [pyRStrip ((a :: t).getLast hne)] ≠ [] := by simp
    rw [rstripLastLine_eq _ hne2]
    have h1 : ((a :: t).dropLast ++ [pyRStrip ((a :: t).getLast hne)]).dropLast =
        (a :: t).dropLast := List.dropLast_concat
    have h2 : ((a :: t).dropLast ++ [pyRStrip ((a :: t).getLast hne)]).getLast hne2 =
        pyRStrip ((a :: t).getLast hne) := List.getLast_concat _
    rw [h1, h2, pyRStrip_idem]

theorem serFinal_rstrip_renum : ∀ (ms : List (List String)) (i : Nat),
    (∀ b ∈ ms, 3 ≤ b.length) → ms ≠ [] →
    serFinal i (rstripLastBlock (renumBlocks i ms)) = serFinal i ms := by
  intro ms
  induction ms with
  | nil => intro i _ h; exact absurd rfl h
  | cons b rest ih =>
    intro i hwf _
    have h3 : 3 ≤ b.length := hwf b (by simp)
    have hdne : b.drop 1 ≠ [] := by
      intro hh
      have := congrArg List.length hh
      rw [List.length_drop] at this
      simp at this
      omega
    cases rest with
    | nil =>
      have e1 : renumBlocks i [b] = [toString i :: b.drop 1] := rfl
      have e2 : rstripLastBlock [toString i :: b.drop 1] =
          [rstripLastLine (toString i :: b.drop 1)] := rfl
      rw [e1, e2]
      show rstripLastLine (toString i :: (rstripLastLine (toString i :: b.drop 1)).drop 1) =
        rstripLastLine (toString i :: b.drop 1)
      rw [rstripLastLine_cons hdne]
      have hXne : rstripLastLine (b.drop 1) ≠ [] := by
        intro hh
        have := rstripLastLine_length (b.drop 1)
        rw [hh] at this
        exact hdne (List.length_eq_zero.1 this.symm)
      show rstripLastLine (toString i :: rstripLastLine (b.drop 1)) = _
      rw [rstripLastLine_cons hXne, rstripLastLine_idem, ← rstripLastLine_cons hdne]
    | cons cb t =>
      have hrne : renumBlocks (i + 1) (cb :: t) ≠ [] := by
        intro hh
        have := renumBlocks_length (cb :: t) (i + 1)
        rw [hh] at this
        simp at this
      rw [renumBlocks_cons, rstripLastBlock_cons hrne]
      have hsne : rstripLastBlock (renumBlocks (i + 1) (cb :: t)) ≠ [] := by
        intro hh
        have := rstripLastBlock_length (renumBlocks (i + 1) (cb :: t))
        rw [hh] at this
        exact hrne (List.length_eq_zero.1 this.symm)
      rw [serFinal_cons hsne, serFinal_cons (by simp : (cb :: t : List (List String)) ≠ []),
        ih (i + 1) (fun b' hb' => hwf b' (by simp [hb'])) (by simp)]
      rfl

theorem parseDocument_BlocksOK {x : String}
    (hwf : ∀ b ∈ parseDocument x, 3 ≤ b.length) (hk : '休' ∉ x.data) :
    BlocksOK (parseDocument x) := by
  intro b hb
  refine ⟨hwf b hb, ?_⟩
  intro ℓ hℓ
  have hchars : ∀ c ∈ (pyStrip x).data, c ≠ '休' := by
    intro c hc hceq
    subst hceq
    exact hk (pyStripL_subset _ hc)
  have hlines := splitlinesGo_chars (fun c => c ≠ '休') (pyStrip x).data [] hchars (by simp)
  have hblk := parseGo_blocks_prop
    (fun ℓ => ∀ c ∈ ℓ.data, c ≠ '休' ∧ isLineBreak c = false)
    (pySplitlines (pyStrip x)) []
    (fun ℓ' hℓ' _ => fun c hc => hlines ℓ' hℓ' c hc)
    (by simp) b hb ℓ hℓ
  refine ⟨?_, ?_, hblk.2⟩
  · intro hmem
    exact (hblk.1 _ hmem).1 rfl
  · intro c hc
    exact (hblk.1 c hc).2

/-- C2 counterexample: an input with no malformed blocks on which applying
`merge_single_char_captions` twice differs from applying it once.  The
first block's text `あ少し休X。` is not a single character, so pass one
only redacts it to `あ`; pass two then sees a single-character block and
merges it with its successor. -/
theorem c2_counterexample :
    (∀ b ∈ parseDocument
        "1\n00:00:01,000 --> 00:00:02,000\nあ少し休X。\n\n2\n00:00:02,000 --> 00:00:03,000\nりがとう\n",
      3 ≤ b.length) ∧
    merge_single_char_captions
        "1\n00:00:01,000 --> 00:00:02,000\nあ少し休X。\n\n2\n00:00:02,000 --> 00:00:03,000\nりがとう\n"
      = some "1\n00:00:01,000 --> 00:00:02,000\nあ\n\n2\n00:00:02,000 --> 00:00:03,000\nりがとう\n" ∧
    merge_single_char_captions
        "1\n00:00:01,000 --> 00:00:02,000\nあ\n\n2\n00:00:02,000 --> 00:00:03,000\nりがとう\n"
      = some "1\n00:00:01,000 --> 00:00:03,000\nありがとう\n" ∧
    (merge_single_char_captions
        "1\n00:00:01,000 --> 00:00:02,000\nあ少し休X。\n\n2\n00:00:02,000 --> 00:00:03,000\nりがとう\n").bind
      merge_single_char_captions ≠
      merge_single_char_captions
        "1\n00:00:01,000 --> 00:00:02,000\nあ少し休X。\n\n2\n00:00:02,000 --> 00:00:03,000\nりがとう\n" := by
  refine ⟨by decide, by decide, by decide, by decide⟩

/-- C2 (amended): `merge_single_char_captions` is idempotent on every
input whose parsed blocks all have at least 3 lines *and* in which the
rest-phrase character `休` does not occur (so the in-place redaction is
the identity and cannot make a block newly single-character, create an
empty text line, or alter a merged block's text in the second pass):
composing the transform with itself agrees with one application. -/
theorem c2_idempotent_without_rest_phrase (x : String)
    (hwf : ∀ b ∈ parseDocument x, 3 ≤ b.length)
    (hk : '休' ∉ x.data) :
    (merge_single_char_captions x).bind merge_single_char_captions =
      merge_single_char_captions x := by
  cases hmp : mergePass (parseDocument x) with
  | none =>
    unfold merge_single_char_captions
    rw [hmp]
    rfl
  | some ms =>
    have hOK0 : BlocksOK (parseDocument x) := parseDocument_BlocksOK hwf hk
    obtain ⟨hOKms, hclean⟩ := mergePass_struct _ _ hmp hOK0
    have hy : merge_single_char_captions x = some (serializeDoc ms) := by
      unfold merge_single_char_captions
      rw [hmp]
      rfl
    rw [hy]
    show merge_single_char_captions (serializeDoc ms) = some (serializeDoc ms)
    cases ms with
    | nil =>
      have hnl : serializeDoc [] = "\n" := by decide
      rw [hnl]
      decide
    | cons m0 mrest =>
      have hparse : parseDocument (serializeDoc (m0 :: mrest)) =
          rstripLastBlock (renumBlocks 1 (m0 :: mrest)) :=
        parse_serializeDoc _ hOKms (by simp)
      have hprops : ∀ b' ∈ rstripLastBlock (renumBlocks 1 (m0 :: mrest)),
          3 ≤ b'.length ∧ filterBlockLines b' = b' := by
        intro b' hb'
        rcases rstripLastBlock_mem _ _ hb' with hmem | ⟨b0, hb0, heq⟩
        · obtain ⟨j, b, hbm, rfl⟩ := renumBlocks_mem _ _ _ hmem
          have hOKb := hOKms b hbm
          constructor
          · have hl : (toString j :: b.drop 1).length = b.length - 1 + 1 := by
              simp [List.length_drop]
            have := hOKb.1
            omega
          · apply filterBlockLines_id
            intro ℓ hℓ
            exact (lines_b_LineOK j hOKb.2 ℓ hℓ).1
        · subst heq
          obtain ⟨j, b, hbm, rfl⟩ := renumBlocks_mem _ _ _ hb0
          have hOKb := hOKms b hbm
          constructor
          · have h1 := rstripLastLine_length (toString j :: b.drop 1)
            have hl : (toString j :: b.drop 1).length = b.length - 1 + 1 := by
              simp [List.length_drop]
            have := hOKb.1
            omega
          · apply filterBlockLines_id
            intro ℓ hℓ
            rcases rstripLastLine_mem _ _ hℓ with h1 | ⟨ℓ0, hℓ0, rfl⟩
            · exact (lines_b_LineOK j hOKb.2 ℓ h1).1
            · exact (LineOK_pyRStrip (lines_b_LineOK j hOKb.2 ℓ0 hℓ0)).1
      have hclean2 : ∀ b' ∈ (rstripLastBlock (renumBlocks 1 (m0 :: mrest))).dropLast,
          (cleanText b').length ≠ 1 := by
        intro b' hb'
        rw [rstripLastBlock_dropLast] at hb'
        obtain ⟨j, b, hbm, rfl⟩ := renumBlocks_dropLast_mem _ _ _ hb'
        rw [cleanText_renum]
        exact hclean b hbm
      have hnoop : mergePass (rstripLastBlock (renumBlocks 1 (m0 :: mrest))) =
          some (rstripLastBlock (renumBlocks 1 (m0 :: mrest))) :=
        mergePass_no_op _ hprops hclean2
      have hOK2 : BlocksOK (rstripLastBlock (renumBlocks 1 (m0 :: mrest))) := by
        intro b' hb'
        refine ⟨(hprops b' hb').1, ?_⟩
        intro ℓ hℓ
        rcases rstripLastBlock_mem _ _ hb' with hmem | ⟨b0, hb0, heq⟩
        · obtain ⟨j, b, hbm, rfl⟩ := renumBlocks_mem _ _ _ hmem
          exact lines_b_LineOK j (hOKms b hbm).2 ℓ hℓ
        · subst heq
          obtain ⟨j, b, hbm, rfl⟩ := renumBlocks_mem _ _ _ hb0
          rcases rstripLastLine_mem _ _ hℓ with h1 | ⟨ℓ0, hℓ0, rfl⟩
          · exact lines_b_LineOK j (hOKms b hbm).2 ℓ h1
          · exact LineOK_pyRStrip (lines_b_LineOK j (hOKms b hbm).2 ℓ0 hℓ0)
      have hbs2ne : rstripLastBlock (renumBlocks 1 (m0 :: mrest)) ≠ [] := by
        intro hh
        have h1 := congrArg List.length hh
        rw [rstripLastBlock_length, renumBlocks_length] at h1
        simp at h1
      have hser : serializeDoc (rstripLastBlock (renumBlocks 1 (m0 :: mrest))) =
          serializeDoc (m0 :: mrest) := by
        show pyRStrip (pyJoin "\n"
          (serLines 1 (rstripLastBlock (renumBlocks 1 (m0 :: mrest))))) ++ "\n" =
          pyRStrip (pyJoin "\n" (serLines 1 (m0 :: mrest))) ++ "\n"
        rw [rstrip_join_serLines _ 1 hOK2 hbs2ne,
          rstrip_join_serLines (m0 :: mrest) 1 hOKms (by simp),
          serFinal_rstrip_renum (m0 :: mrest) 1 (fun b hb => (hOKms b hb).1) (by simp)]
      unfold merge_single_char_captions
      rw [hparse, hnoop]
      rw [show (some (rstripLastBlock (renumBlocks 1 (m0 :: mrest)))).map serializeDoc =
          some (serializeDoc (rstripLastBlock (renumBlocks 1 (m0 :: mrest)))) from rfl, hser]

/-- Witness for `c2_idempotent_without_rest_phrase` at the concrete
two-block document of the spec's merge scenario. -/
theorem c2_idempotent_without_rest_phrase_witness :
    (∀ b ∈ parseDocument
        "1\n00:00:01,000 --> 00:00:02,000\nあ\n\n2\n00:00:02,000 --> 00:00:03,000\nりがとう\n",
      3 ≤ b.length) ∧
    '休' ∉ ("1\n00:00:01,000 --> 00:00:02,000\nあ\n\n2\n00:00:02,000 --> 00:00:03,000\nりがとう\n" : String).data ∧
    (merge_single_char_captions
        "1\n00:00:01,000 --> 00:00:02,000\nあ\n\n2\n00:00:02,000 --> 00:00:03,000\nりがとう\n").bind
      merge_single_char_captions =
      merge_single_char_captions
        "1\n00:00:01,000 --> 00:00:02,000\nあ\n\n2\n00:00:02,000 --> 00:00:03,000\nりがとう\n" :=
  ⟨by decide, by decide,
    c2_idempotent_without_rest_phrase _ (by decide) (by decide)⟩
